import Mathlib

/-
Verification of the ingestion-and-categorization core of the
Personal-Finances-Tracker repository (statement parsing and the
rule/score-based categorization engine).

Shallow-embedding conventions used throughout this file:
* JavaScript numbers are modelled as exact rationals; IEEE-754 double
  arithmetic is idealized as exact rational arithmetic.
* JavaScript Date values are modelled by their epoch-millisecond
  timestamp.  The engine primitives that produce timestamps from
  calendar components or from free-form strings, and the current clock,
  are collected in an explicit environment structure JsEnv.
* JavaScript Map objects are modelled as association lists in insertion
  order, with lookup returning the first matching key.
* Evaluation of dynamically built regular expressions (user-supplied
  regex rule patterns and the word-boundary keyword pattern) happens
  outside the shallow embedding; it is modelled by an explicit engine
  parameter JsRegexEngine that theorems quantify over.  Fixed regular
  expressions with elementary semantics (character classes, splitting,
  substring and anchored-literal tests) are implemented directly.
* All strings in scope are ASCII; case mapping is ASCII case mapping.
-/

set_option maxRecDepth 4000

namespace PFT

/-! ## JavaScript primitive model -/

/-- Environment of engine-provided date primitives.  ymdTime models
(new Date(year, month, day)).getTime() for the fixed engine and local
timezone, taking the three parseInt results (none models NaN);
strTime models (new Date(s)).getTime() for a free-form string; now
models Date.now() at the moment of the run. -/
structure JsEnv where
  now : Int
  ymdTime : Option Int → Option Int → Option Int → Int
  strTime : String → Int

/-- Oracle standing for dynamic RegExp evaluation.  boundaryTest kw text
models the test of the dynamically built case-insensitive pattern
anchored by word boundaries around the escaped keyword kw; regexTest p
text models compiling the user pattern p case-insensitively and testing
text, with none standing for a compile failure (the thrown exception). -/
structure JsRegexEngine where
  boundaryTest : String → String → Bool
  regexTest : String → String → Option Bool

def isWsChar (c : Char) : Bool :=
  c.toNat == 32 || (9 ≤ c.toNat && c.toNat ≤ 13)

def isDigitChar (c : Char) : Bool :=
  48 ≤ c.toNat && c.toNat ≤ 57

/-- Word character in the sense of the regex classes backslash-w and
backslash-b: ASCII letters, digits and underscore. -/
def isWordChar (c : Char) : Bool :=
  (65 ≤ c.toNat && c.toNat ≤ 90) || (97 ≤ c.toNat && c.toNat ≤ 122) ||
    isDigitChar c || c == '_'

def asciiUpperChar (c : Char) : Char :=
  if 97 ≤ c.toNat ∧ c.toNat ≤ 122 then Char.ofNat (c.toNat - 32) else c

def asciiLowerChar (c : Char) : Char :=
  if 65 ≤ c.toNat ∧ c.toNat ≤ 90 then Char.ofNat (c.toNat + 32) else c

def upperStr (s : String) : String := String.mk (s.data.map asciiUpperChar)

def lowerStr (s : String) : String := String.mk (s.data.map asciiLowerChar)

/-- The needle list occurs at the start of the hay list. -/
def listStarts : List Char → List Char → Bool
  | [], _ => true
  | _ :: _, [] => false
  | a :: as, b :: bs => a == b && listStarts as bs

/-- The needle list occurs somewhere inside the hay list
(String.prototype.includes). -/
def listHas (needle : List Char) : List Char → Bool
  | [] => decide (needle = [])
  | c :: t => listStarts needle (c :: t) || listHas needle t

def containsStr (hay needle : String) : Bool := listHas needle.data hay.data

def startsWithStr (hay needle : String) : Bool := listStarts needle.data hay.data

def trimChars (l : List Char) : List Char :=
  ((l.dropWhile isWsChar).reverse.dropWhile isWsChar).reverse

def trimStr (s : String) : String := String.mk (trimChars s.data)

/-- Split a character list at every character satisfying p, keeping
empty groups, like String.prototype.split on a single-character class.
Splitting on a one-or-more character-class regex agrees with this after
empty groups are dropped, which is what every caller does. -/
def splitKeep (p : Char → Bool) : List Char → List (List Char)
  | [] => [[]]
  | c :: t =>
    match splitKeep p t with
    | [] => [[]]
    | g :: gs => if p c then [] :: g :: gs else (c :: g) :: gs

def joinWith : List Char → List (List Char) → List Char
  | _, [] => []
  | _, [g] => g
  | sep, g :: g2 :: gs => g ++ sep ++ joinWith sep (g2 :: gs)

def joinStr (sep : String) (parts : List String) : String :=
  String.mk (joinWith sep.data (parts.map (fun s => s.data)))

/-- Collapse every whitespace run to a single space without trimming,
like replace of a whitespace-run regex by a single space. -/
def collapseWsAux : Bool → List Char → List Char
  | pending, [] => if pending then [' '] else []
  | pending, c :: t =>
    if isWsChar c then collapseWsAux true t
    else (if pending then [' ', c] else [c]) ++ collapseWsAux false t

def collapseWs (s : String) : String := String.mk (collapseWsAux false s.data)

/-- JavaScript Map lookup: first entry with the given key. -/
def mapGet {α : Type} : List (String × α) → String → Option α
  | [], _ => none
  | (k, v) :: t, key => if k = key then some v else mapGet t key

/-- JavaScript Map set: replace in place, or append preserving insertion
order. -/
def mapSet {α : Type} : List (String × α) → String → α → List (String × α)
  | [], key, val => [(key, val)]
  | (k, v) :: t, key, val =>
    if k = key then (k, val) :: t else (k, v) :: mapSet t key val

def digitsToNat (l : List Char) : Nat :=
  l.foldl (fun n c => n * 10 + (c.toNat - 48)) 0

/-- JavaScript parseFloat restricted to plain decimal notation
(optional sign, integer digits, optional fraction); trailing garbage is
ignored, none models NaN.  Exponent and Infinity forms, which do not
occur in bank-statement cells, are not modelled. -/
def parseFloatJS (s : String) : Option ℚ :=
  let l := s.data.dropWhile isWsChar
  let signAndRest : ℚ × List Char :=
    match l with
    | '-' :: t => (-1, t)
    | '+' :: t => (1, t)
    | _ => (1, l)
  let intDigits := signAndRest.2.takeWhile isDigitChar
  let rest := signAndRest.2.dropWhile isDigitChar
  let fracDigits :=
    match rest with
    | '.' :: t => t.takeWhile isDigitChar
    | _ => []
  if intDigits = [] ∧ fracDigits = [] then none
  else
    some (signAndRest.1 *
      ((digitsToNat intDigits : ℚ) +
        (digitsToNat fracDigits : ℚ) / ((10 : ℚ) ^ fracDigits.length)))

/-- JavaScript parseInt with radix 10; none models NaN. -/
def parseIntJS (s : String) : Option Int :=
  let l := s.data.dropWhile isWsChar
  let signAndRest : Int × List Char :=
    match l with
    | '-' :: t => (-1, t)
    | '+' :: t => (1, t)
    | _ => (1, l)
  let ds := signAndRest.2.takeWhile isDigitChar
  if ds = [] then none else some (signAndRest.1 * (digitsToNat ds : Int))

def removeCommas (s : String) : String :=
  String.mk (s.data.filter (fun c => !(c == ',')))

/-- Number.isInteger on the rational model of a JavaScript number. -/
def jsIsInteger (q : ℚ) : Bool := q.den == 1

def natToDigitList : Nat → Nat → List Char
  | 0, _ => []
  | fuel + 1, n =>
    if n = 0 then [] else natToDigitList fuel (n / 10) ++ [Char.ofNat (48 + n % 10)]

def natToString (n : Nat) : String :=
  if n = 0 then "0" else String.mk (natToDigitList (n + 1) n)

/-- JavaScript number-to-string conversion for the rational model,
exact for integers and for numbers with a short finite decimal
expansion (the spreadsheet cases); other rationals are rendered by a
truncated 17-digit expansion as an approximation of shortest-roundtrip
double printing. -/
def jsNumToStringNonneg (q : ℚ) : String :=
  if q.den = 1 then natToString q.num.natAbs
  else
    match (List.range 18).find? (fun k => (q * (10 : ℚ) ^ k).den == 1) with
    | some k =>
      let scaled := (q * (10 : ℚ) ^ k).num.natAbs
      let ip := scaled / 10 ^ k
      let frac := scaled % 10 ^ k
      let fracStr := natToString frac
      natToString ip ++ "." ++
        String.mk (List.replicate (k - fracStr.data.length) '0') ++ fracStr
    | none =>
      let scaled := q.num.natAbs * 10 ^ 17 / q.den
      natToString (scaled / 10 ^ 17) ++ "." ++ natToString (scaled % 10 ^ 17)

def jsNumToString (q : ℚ) : String :=
  if q < 0 then "-" ++ jsNumToStringNonneg (-q) else jsNumToStringNonneg q

/-! ## Categorization engine (categoryEngine.ts)

Data model of the engine, translated from the TypeScript interfaces. -/

structure MerchantInfo where
  merchant : String
  method : String
deriving DecidableEq, Repr

inductive RuleType
  | keyword
  | regex
  | merchant
  | deposit
  | amount
deriving DecidableEq, Repr

inductive RuleField
  | remarks
  | merchant
deriving DecidableEq, Repr

structure CategorizationRule where
  priority : ℚ
  categoryId : String
  type : RuleType
  pattern : String
  field : RuleField
  minAmount : Option ℚ
  maxAmount : Option ℚ
deriving DecidableEq, Repr

/-- The transaction projection consumed by getRuleMatchScore and
categorizeTransaction. -/
structure ScoreInput where
  remarks : String
  merchantName : Option String
  withdrawalAmount : ℚ
  depositAmount : ℚ
deriving DecidableEq, Repr

structure MerchantCategoryHint where
  categoryId : String
  count : Nat
  confidence : ℚ
deriving DecidableEq, Repr

structure CategorizationOptions where
  merchantHints : Option (List (String × MerchantCategoryHint))
deriving DecidableEq

structure HistoricalCategorizedTransaction where
  remarks : String
  merchantName : Option String
  categoryId : String
  userCategoryOverride : Option String
  withdrawalAmount : ℚ
  depositAmount : ℚ
deriving DecidableEq, Repr

/-- Source: normalize.  Uppercase, collapse every run of characters
outside [A-Z0-9@&] to one space, collapse whitespace, trim. -/
def normalize (text : String) : String :=
  let isKeep : Char → Bool := fun c =>
    (65 ≤ c.toNat && c.toNat ≤ 90) || isDigitChar c || c == '@' || c == '&'
  joinStr " "
    (((splitKeep (fun c => !isKeep c) (text.data.map asciiUpperChar)).filter
        (fun g => g ≠ [])).map String.mk)

/-- Source: normalizeMerchantKey.  normalize, then strip at-signs,
ampersands and whitespace. -/
def normalizeMerchantKey (text : String) : String :=
  String.mk
    ((normalize text).data.filter (fun c => !(c == '@' || c == '&' || c == ' ')))

/-- JavaScript or-else on a string option where the empty string is
falsy, modelling (expr || fallback). -/
def jsOr (v : Option String) (fallback : String) : String :=
  match v with
  | some s => if s = "" then fallback else s
  | none => fallback

def MERCHANT_NOISE_WORDS : List String :=
  ["UPI", "MMT", "IMPS", "NEFT", "BIL", "VIN", "VPS", "INFT", "TRF", "DR",
   "CR", "REF", "REFNO", "TRANSFER", "PAYMENT", "PAY", "TO", "FROM",
   "ACCOUNT", "ACC", "CARD", "DEBIT", "CREDIT", "TXN", "TRANSACTION",
   "CHARGE", "ATM", "CHEQUE", "CHQ", "UNKNOWN"]

/-- Source: isLikelyMerchantToken. -/
def isLikelyMerchantToken (token : String) : Bool :=
  let normalizedToken := normalize token
  if normalizedToken = "" then false
  else if !(normalizedToken.data.any (fun c => 65 ≤ c.toNat && c.toNat ≤ 90)) then
    false
  else
    let compact := String.mk (normalizedToken.data.filter (fun c => !(c == ' ')))
    if compact.data.length < 3 then false
    else if compact.data.all isDigitChar then false
    else if MERCHANT_NOISE_WORDS.contains compact then false
    else true

def isMerchantDelim (c : Char) : Bool :=
  c == '/' || c == '|' || c == ':' || c == ';' || c == '-' || c == '_' || c == '*'

def findLikelySegment : List (List Char) → Option String
  | [] => none
  | rawSegment :: rest =>
    let segment :=
      if rawSegment.any (fun c => c == '@') then
        match splitKeep (fun c => c == '@') rawSegment with
        | [] => rawSegment
        | g :: _ => if g = [] then rawSegment else g
      else rawSegment
    if isLikelyMerchantToken (String.mk segment) then
      some (normalize (String.mk segment))
    else findLikelySegment rest

/-- Source: extractLikelyMerchant.  Split the narration on the
delimiter class, trim and drop empty segments, truncate each segment at
the first at-sign, and return the first merchant-like segment
normalized. -/
def extractLikelyMerchant (remarks : String) : Option String :=
  findLikelySegment
    (((splitKeep isMerchantDelim remarks.data).map trimChars).filter
      (fun g => g ≠ []))

def extractUPIMerchant (remarks : String) : Option String :=
  extractLikelyMerchant remarks

def extractNEFTMerchant (remarks : String) : Option String :=
  extractLikelyMerchant remarks

def extractIMPSMerchant (remarks : String) : Option String :=
  extractLikelyMerchant remarks

def extractBILMerchant (remarks : String) : Option String :=
  extractLikelyMerchant remarks

def extractVINMerchant (remarks : String) : Option String :=
  extractLikelyMerchant remarks

/-- Source: extractMerchant. -/
def extractMerchant (remarks : String) : MerchantInfo :=
  let normalizedRemarks := upperStr remarks
  if startsWithStr normalizedRemarks "UPI/" then
    ⟨jsOr (extractUPIMerchant remarks) "Unknown UPI", "UPI"⟩
  else if startsWithStr normalizedRemarks "NEFT" then
    ⟨jsOr (extractNEFTMerchant remarks) "Unknown NEFT", "NEFT"⟩
  else if startsWithStr normalizedRemarks "MMT/IMPS" then
    ⟨jsOr (extractIMPSMerchant remarks) "Unknown IMPS", "IMPS"⟩
  else if startsWithStr normalizedRemarks "BIL/" then
    ⟨jsOr (extractBILMerchant remarks) "Bill Payment", "OTHER"⟩
  else if startsWithStr normalizedRemarks "VIN/" then
    ⟨jsOr (extractVINMerchant remarks) "Card Payment", "CARD"⟩
  else if containsStr normalizedRemarks "ATM" ||
      containsStr normalizedRemarks "CASH WITHDRAWAL" then
    ⟨"ATM Withdrawal", "ATM"⟩
  else if containsStr normalizedRemarks "CHQ" ||
      containsStr normalizedRemarks "CHEQUE" then
    ⟨"Cheque", "CHEQUE"⟩
  else ⟨jsOr (extractLikelyMerchant remarks) "Unknown", "OTHER"⟩

/-- Source: scoreKeywordMatch.  The word-boundary test of each escaped
keyword is delegated to the engine oracle; the substring test is
String.prototype.includes. -/
def scoreKeywordMatch (E : JsRegexEngine) (text : String) (pattern : String) : ℚ :=
  let keywords :=
    ((splitKeep (fun c => c == '|') pattern.data).map
        (fun g => normalize (String.mk g))).filter (fun k => k ≠ "")
  keywords.foldl
    (fun bestScore keyword =>
      let compactLength := (keyword.data.filter (fun c => !(c == ' '))).length
      let lengthBoost : ℚ := (min compactLength 20 : ℕ) * (6/5)
      if E.boundaryTest keyword text then max bestScore (45 + lengthBoost)
      else if containsStr text keyword then max bestScore (28 + lengthBoost)
      else bestScore)
    0

/-- The amount inspected by the min/max gate of getRuleMatchScore:
(transaction.withdrawalAmount || transaction.depositAmount), where a
zero withdrawal is falsy. -/
def gateAmount (transaction : ScoreInput) : ℚ :=
  if transaction.withdrawalAmount ≠ 0 then transaction.withdrawalAmount
  else transaction.depositAmount

/-- The text a non-deposit rule is matched against, chosen by
rule.field, with a missing merchant name falling back to the empty
string. -/
def ruleFieldText (transaction : ScoreInput) (rule : CategorizationRule) : String :=
  match rule.field with
  | RuleField.merchant =>
    normalize (match transaction.merchantName with | some s => s | none => "")
  | RuleField.remarks => normalize transaction.remarks

/-- Source: getRuleMatchScore.  The amount gate is written
unconditionally; when neither bound is present both comparisons are
vacuously false, exactly as in the guarded source form. -/
def getRuleMatchScore (E : JsRegexEngine) (transaction : ScoreInput)
    (rule : CategorizationRule) : ℚ :=
  let amount := gateAmount transaction
  let belowMin :=
    match rule.minAmount with
    | some m => decide (amount < m)
    | none => false
  let aboveMax :=
    match rule.maxAmount with
    | some m => decide (amount > m)
    | none => false
  if belowMin then 0
  else if aboveMax then 0
  else
    let priorityBoost : ℚ := max 0 (25 - min rule.priority 25) * (7/10)
    match rule.type with
    | RuleType.deposit =>
      if transaction.depositAmount ≤ 0 then 0
      else if rule.pattern = "" then 65 + priorityBoost
      else
        let keywordScore :=
          scoreKeywordMatch E (normalize transaction.remarks) rule.pattern
        if keywordScore ≤ 0 then 0 else 35 + keywordScore + priorityBoost
    | RuleType.keyword =>
      let keywordScore := scoreKeywordMatch E (ruleFieldText transaction rule) rule.pattern
      if keywordScore ≤ 0 then 0 else 20 + keywordScore + priorityBoost
    | RuleType.regex =>
      match E.regexTest rule.pattern (ruleFieldText transaction rule) with
      | none => 0
      | some b => if b then 95 + priorityBoost else 0
    | RuleType.merchant =>
      if ruleFieldText transaction rule = normalize rule.pattern then
        100 + priorityBoost
      else 0
    | RuleType.amount => 55 + priorityBoost

structure BestMatch where
  categoryId : String
  score : ℚ
  priority : ℚ
deriving DecidableEq, Repr

/-- One iteration of the best-match selection loop of
categorizeTransaction: skip non-positive scores, keep the strictly
higher score, break score ties by the lower priority number. -/
def bestMatchStep (E : JsRegexEngine) (transaction : ScoreInput)
    (bestMatch : Option BestMatch) (rule : CategorizationRule) : Option BestMatch :=
  let score := getRuleMatchScore E transaction rule
  if score ≤ 0 then bestMatch
  else
    match bestMatch with
    | none => some ⟨rule.categoryId, score, rule.priority⟩
    | some b =>
      if score > b.score ∨ (score = b.score ∧ rule.priority < b.priority) then
        some ⟨rule.categoryId, score, rule.priority⟩
      else bestMatch

/-- The best-match selection loop of categorizeTransaction. -/
def bestRuleMatch (E : JsRegexEngine) (transaction : ScoreInput)
    (rules : List CategorizationRule) : Option BestMatch :=
  rules.foldl (bestMatchStep E transaction) none

/-- Source: categoryFromHints.  The empty merchant name is falsy. -/
def categoryFromHints (transaction : ScoreInput)
    (merchantHints : Option (List (String × MerchantCategoryHint))) : Option String :=
  match merchantHints, transaction.merchantName with
  | none, _ => none
  | some _, none => none
  | some hints, some m =>
    if m = "" then none
    else
      let merchantKey := normalizeMerchantKey m
      if merchantKey = "" ∨ merchantKey.data.length < 3 ∨ merchantKey = "UNKNOWN" then
        none
      else
        match mapGet hints merchantKey with
        | none => none
        | some hint =>
          if hint.count < 2 ∨ hint.confidence < (13/20 : ℚ) then none
          else some hint.categoryId

/-- The fixed fallback chain at the end of categorizeTransaction. -/
def fallbackCategory (transaction : ScoreInput) : String :=
  let normalizedRemarks := normalize transaction.remarks
  if containsStr normalizedRemarks "ATM" ||
      containsStr normalizedRemarks "CASH WITHDRAWAL" ||
      containsStr normalizedRemarks "SELF TRANSFER" then "transfers"
  else if transaction.depositAmount > 0 then
    if containsStr normalizedRemarks "SALARY" ||
        containsStr normalizedRemarks "PAYROLL" then "salary"
    else if containsStr normalizedRemarks "REFUND" ||
        containsStr normalizedRemarks "REVERSAL" ||
        containsStr normalizedRemarks "CASHBACK" ||
        containsStr normalizedRemarks "REWARD" then "refunds"
    else "income"
  else "uncategorized"

/-- The continuation of categorizeTransaction after the rule path: a
truthy hinted category is returned, otherwise the fixed fallback chain
runs (an empty hinted string is falsy and falls through). -/
def hintOrFallback (transaction : ScoreInput) (options : CategorizationOptions) :
    String :=
  match categoryFromHints transaction options.merchantHints with
  | some hinted => if hinted = "" then fallbackCategory transaction else hinted
  | none => fallbackCategory transaction

/-- Source: categorizeTransaction. -/
def categorizeTransaction (E : JsRegexEngine) (transaction : ScoreInput)
    (rules : List CategorizationRule) (options : CategorizationOptions) : String :=
  match bestRuleMatch E transaction rules with
  | some bestMatch =>
    if 60 ≤ bestMatch.score then bestMatch.categoryId
    else hintOrFallback transaction options
  | none => hintOrFallback transaction options

/-! ## Merchant hints (buildMerchantHints) -/

structure MerchantStats where
  total : Nat
  byCategory : List (String × Nat)
deriving DecidableEq, Repr

/-- One iteration of the grouping loop of buildMerchantHints: count
the transaction under its merchant key and effective category, skipping
uncategorized or empty categories, short keys and the UNKNOWN key. -/
def buildStatsStep (byMerchant : List (String × MerchantStats))
    (tx : HistoricalCategorizedTransaction) : List (String × MerchantStats) :=
  let effectiveCategory :=
    match tx.userCategoryOverride with
    | some s => if s = "" then tx.categoryId else s
    | none => tx.categoryId
  if effectiveCategory = "" ∨ effectiveCategory = "uncategorized" then byMerchant
  else
    let inferredMerchant :=
      match tx.merchantName with
      | some m => if m = "" then (extractMerchant tx.remarks).merchant else m
      | none => (extractMerchant tx.remarks).merchant
    let merchantKey := normalizeMerchantKey inferredMerchant
    if merchantKey.data.length < 3 ∨ merchantKey = "UNKNOWN" then byMerchant
    else
      let existing := (mapGet byMerchant merchantKey).getD ⟨0, []⟩
      mapSet byMerchant merchantKey
        ⟨existing.total + 1,
         mapSet existing.byCategory effectiveCategory
           ((mapGet existing.byCategory effectiveCategory).getD 0 + 1)⟩

/-- The grouping loop of buildMerchantHints. -/
def buildMerchantStats
    (historicalTransactions : List HistoricalCategorizedTransaction) :
    List (String × MerchantStats) :=
  historicalTransactions.foldl buildStatsStep []

/-- Head of the stable descending sort of the per-category counts: the
first entry carrying the maximal count, as Array.prototype.sort is
stable. -/
def pickTopCategory (entries : List (String × Nat)) : Option (String × Nat) :=
  entries.foldl
    (fun best e =>
      match best with
      | none => some e
      | some b => if e.2 > b.2 then some e else best)
    none

/-- The filtering step of buildMerchantHints for one merchant: the
majority category must have count at least 2 and confidence
(count over total) at least 0.65. -/
def hintOfStats (stats : MerchantStats) : Option MerchantCategoryHint :=
  match pickTopCategory stats.byCategory with
  | none => none
  | some top =>
    let confidence : ℚ := (top.2 : ℚ) / (stats.total : ℚ)
    if top.2 < 2 ∨ confidence < (13/20 : ℚ) then none
    else some ⟨top.1, top.2, confidence⟩

/-- One iteration of the hint-filter loop of buildMerchantHints. -/
def hintsFoldStep (hints : List (String × MerchantCategoryHint))
    (e : String × MerchantStats) : List (String × MerchantCategoryHint) :=
  match hintOfStats e.2 with
  | none => hints
  | some h => mapSet hints e.1 h

/-- Source: buildMerchantHints = grouping loop followed by the
threshold filter over the grouped entries in insertion order. -/
def buildMerchantHints
    (historicalTransactions : List HistoricalCategorizedTransaction) :
    List (String × MerchantCategoryHint) :=
  (buildMerchantStats historicalTransactions).foldl hintsFoldStep []

/-! ## Transaction processing pipeline (processTransactions) -/

structure RawTransaction where
  serialNo : ℚ
  valueDate : Int
  transactionDate : Int
  chequeNumber : Option String
  remarks : String
  withdrawalAmount : ℚ
  depositAmount : ℚ
  balance : ℚ
  rewardPoints : Option ℚ
deriving DecidableEq, Repr

inductive StatementType
  | debit
  | credit
deriving DecidableEq, Repr

structure CategorizedTransaction where
  serialNo : ℚ
  valueDate : Int
  transactionDate : Int
  chequeNumber : Option String
  remarks : String
  withdrawalAmount : ℚ
  depositAmount : ℚ
  balance : ℚ
  categoryId : String
  merchantName : Option String
  paymentMethod : String
  statementType : StatementType
  rewardPoints : Option ℚ
deriving DecidableEq, Repr

structure ProcessTransactionsOptions where
  historicalTransactions : Option (List HistoricalCategorizedTransaction)

/-- The merchant info computed per transaction inside
processTransactions: the credit path derives the merchant from the
narration directly with method CARD, the debit path runs
extractMerchant. -/
def merchantInfoFor (statementType : StatementType) (remarks : String) :
    MerchantInfo :=
  match statementType with
  | StatementType.credit =>
    ⟨jsOr (extractLikelyMerchant remarks) (normalize remarks), "CARD"⟩
  | StatementType.debit => extractMerchant remarks

/-- The session-cache key of a transaction inside processTransactions. -/
def merchantKeyFor (statementType : StatementType) (remarks : String) : String :=
  normalizeMerchantKey (merchantInfoFor statementType remarks).merchant

/-- The category assigned to one transaction inside
processTransactions: (sessionCategory || categorizeTransaction ...),
where a cached empty string is falsy and falls back to re-scoring. -/
def sessionCategoryId (E : JsRegexEngine) (rules : List CategorizationRule)
    (statementType : StatementType)
    (merchantHints : List (String × MerchantCategoryHint))
    (cache : List (String × String)) (tx : RawTransaction) : String :=
  match mapGet cache (merchantKeyFor statementType tx.remarks) with
  | some c =>
    if c = "" then
      categorizeTransaction E
        ⟨tx.remarks, some (merchantInfoFor statementType tx.remarks).merchant,
          tx.withdrawalAmount, tx.depositAmount⟩ rules ⟨some merchantHints⟩
    else c
  | none =>
    categorizeTransaction E
      ⟨tx.remarks, some (merchantInfoFor statementType tx.remarks).merchant,
        tx.withdrawalAmount, tx.depositAmount⟩ rules ⟨some merchantHints⟩

/-- The cache update of one processTransactions iteration: record the
assigned category for a truthy merchant key unless it is
"uncategorized". -/
def sessionCacheNext (statementType : StatementType)
    (cache : List (String × String)) (tx : RawTransaction)
    (categoryId : String) : List (String × String) :=
  if merchantKeyFor statementType tx.remarks ≠ "" ∧
      categoryId ≠ "uncategorized" then
    mapSet cache (merchantKeyFor statementType tx.remarks) categoryId
  else cache

/-- The mapping loop of processTransactions carrying the session-level
merchant-to-category cache. -/
def processTransactionsAux (E : JsRegexEngine) (rules : List CategorizationRule)
    (statementType : StatementType)
    (merchantHints : List (String × MerchantCategoryHint)) :
    List (String × String) → List RawTransaction → List CategorizedTransaction
  | _, [] => []
  | cache, tx :: rest =>
    let merchantInfo := merchantInfoFor statementType tx.remarks
    let categoryId := sessionCategoryId E rules statementType merchantHints cache tx
    ⟨tx.serialNo, tx.valueDate, tx.transactionDate, tx.chequeNumber, tx.remarks,
      tx.withdrawalAmount, tx.depositAmount, tx.balance, categoryId,
      some merchantInfo.merchant, merchantInfo.method, statementType,
      tx.rewardPoints⟩ ::
      processTransactionsAux E rules statementType merchantHints
        (sessionCacheNext statementType cache tx categoryId) rest

/-- Source: processTransactions.  Hints are built once per run from
the supplied historical list; the session cache starts empty for every
run. -/
def processTransactions (E : JsRegexEngine) (rawTransactions : List RawTransaction)
    (rules : List CategorizationRule) (statementType : StatementType)
    (options : ProcessTransactionsOptions) : List CategorizedTransaction :=
  let merchantHints := buildMerchantHints (options.historicalTransactions.getD [])
  processTransactionsAux E rules statementType merchantHints [] rawTransactions

/-! ## Shared parser primitives (xlsParser.ts) -/

/-- A spreadsheet cell of the untyped 2-D grid: a string, a number, or
an absent value (null, undefined or an empty slot). -/
inductive Cell
  | str (s : String)
  | num (q : ℚ)
  | empty
deriving DecidableEq, Repr

/-- JavaScript truthiness of a cell value. -/
def cellTruthy : Cell → Bool
  | Cell.str s => !(s == "")
  | Cell.num q => !(q == 0)
  | Cell.empty => false

/-- String(x) for a cell; Array.prototype.join renders absent values
as the empty string as well, so one conversion covers both uses in
scope (String(x) on a bare absent value is never reached because every
such use is guarded by a truthiness or ternary check). -/
def jsCellString : Cell → String
  | Cell.str s => s
  | Cell.num q => jsNumToString q
  | Cell.empty => ""

/-- Source: parseAmount.  Numbers pass through, falsy values give 0,
strings are comma-stripped, trimmed and parseFloat-ed with NaN
defaulting to 0. -/
def parseAmount (value : Cell) : ℚ :=
  match value with
  | Cell.num q => q
  | Cell.str s =>
    if s = "" then 0 else (parseFloatJS (trimStr (removeCommas s))).getD 0
  | Cell.empty => 0

/-- Source: parseIndianDate.  An empty string yields the current clock
(new Date()); a three-part slash form builds a calendar date from the
parseInt results; anything else falls back to engine string parsing. -/
def parseIndianDate (env : JsEnv) (dateStr : String) : Int :=
  if dateStr = "" then env.now
  else
    let parts := (splitKeep (fun c => c == '/') (trimStr dateStr).data).map String.mk
    if parts.length = 3 then
      env.ymdTime (parseIntJS (parts.getD 2 ""))
        ((parseIntJS (parts.getD 1 "")).map (fun m => m - 1))
        (parseIntJS (parts.getD 0 ""))
    else env.strTime dateStr

/-! ## Debit statement, tabular parser (parseICICIDebitStatement) -/

/-- row.join(" ") followed by toLowerCase over one grid row. -/
def rowString (row : List Cell) : String :=
  joinStr " " (row.map jsCellString)

def cellAt (row : List Cell) (i : Nat) : Cell := row.getD i Cell.empty

/-- String(row[i] || ""): the stringification the scan loop applies to
optional cells, with every falsy cell collapsing to the empty string. -/
def cellStringAt (row : List Cell) (i : Nat) : String :=
  let c := cellAt row i
  if cellTruthy c then jsCellString c else ""

/-- The header-discovery loop: the first row whose joined lowercase
text contains "s no" gives headerRowIndex, and columnOffset is 1
exactly when its first cell is null, undefined or the empty string. -/
def findHeaderRowAux (i : Nat) : List (List Cell) → Option (Nat × Nat)
  | [] => none
  | row :: rest =>
    if containsStr (lowerStr (rowString row)) "s no" then
      let columnOffset :=
        match row.head? with
        | none => 1
        | some Cell.empty => 1
        | some (Cell.str s) => if s = "" then 1 else 0
        | some (Cell.num _) => 0
      some (i, columnOffset)
    else findHeaderRowAux (i + 1) rest

def findHeaderRow (data : List (List Cell)) : Option (Nat × Nat) :=
  findHeaderRowAux 0 data

/-- The transaction scan loop after the header row: short rows and
rows without a positive integer serial in column columnOffset are
skipped; a qualifying row whose cell at index 5 + columnOffset contains
"legend" or "note" (lowercased) breaks the loop; otherwise the row is
kept when its remarks cell is non-empty and some amount is positive. -/
def scanDebitRows (env : JsEnv) (columnOffset : Nat) :
    List (List Cell) → List RawTransaction
  | [] => []
  | row :: rest =>
    if row.length < 6 then scanDebitRows env columnOffset rest
    else
      let serialNo := parseAmount (cellAt row columnOffset)
      if serialNo ≤ 0 ∨ jsIsInteger serialNo = false then
        scanDebitRows env columnOffset rest
      else
        let remarksCell := lowerStr (cellStringAt row (5 + columnOffset))
        if containsStr remarksCell "legend" || containsStr remarksCell "note" then []
        else
          let transaction : RawTransaction :=
            ⟨serialNo,
             parseIndianDate env (cellStringAt row (1 + columnOffset)),
             parseIndianDate env (cellStringAt row (2 + columnOffset)),
             (if cellTruthy (cellAt row (3 + columnOffset)) then
                some (jsCellString (cellAt row (3 + columnOffset)))
              else none),
             cellStringAt row (4 + columnOffset),
             parseAmount (cellAt row (5 + columnOffset)),
             parseAmount (cellAt row (6 + columnOffset)),
             parseAmount (cellAt row (7 + columnOffset)),
             none⟩
          if transaction.remarks ≠ "" ∧
              (transaction.withdrawalAmount > 0 ∨ transaction.depositAmount > 0 ∨
                transaction.balance > 0) then
            transaction :: scanDebitRows env columnOffset rest
          else scanDebitRows env columnOffset rest

/-- The transaction-extraction part of parseICICIDebitStatement over
the sheet grid (metadata extraction and hashing are independent of the
transaction list and are out of scope).  Rows are always arrays in the
model. -/
def parseDebitTransactions (env : JsEnv) (data : List (List Cell)) :
    Except String (List RawTransaction) :=
  match findHeaderRow data with
  | none => Except.error "Could not find transaction header row in the statement"
  | some hr =>
    let transactions := scanDebitRows env hr.2 (data.drop (hr.1 + 1))
    if transactions = [] then
      Except.error
        "No transactions were found in this debit statement. Please verify the file format."
    else Except.ok transactions

/-- The parse-and-categorize pipeline for one tabular debit statement:
extract the raw transactions from the grid, then categorize them, which
is the categorization output the determinism property speaks about. -/
def debitPipeline (env : JsEnv) (E : JsRegexEngine) (data : List (List Cell))
    (rules : List CategorizationRule)
    (historicalTransactions : List HistoricalCategorizedTransaction) :
    Except String (List CategorizedTransaction) :=
  match parseDebitTransactions env data with
  | Except.error e => Except.error e
  | Except.ok txs =>
    Except.ok
      (processTransactions E txs rules StatementType.debit
        ⟨some historicalTransactions⟩)

/-! ## Debit statement, PDF parser: block finalization (iciciParser.ts) -/

/-- Source: almostEqualAmount. -/
def almostEqualAmount (a b : ℚ) : Bool := decide (|a - b| < (1/100 : ℚ))

/-- Result of parseDebitPdfTransactionBlock for one accumulated
transaction block: the trailing numeric tokens give the balance, plus
either a deposit/withdrawal pair (three tokens) or a single ambiguous
amount (two tokens). -/
structure ParsedDebitBlock where
  date : Int
  remarks : String
  balance : ℚ
  amount : Option ℚ
  depositAmount : Option ℚ
  withdrawalAmount : Option ℚ
  isOpeningRow : Bool
deriving DecidableEq, Repr

/-- The mutable scan state that finalizeCurrentBlock reads and writes:
the running previous balance, the opening balance and the next serial
number to assign. -/
structure DebitPdfScanState where
  previousBalance : Option ℚ
  openingBalance : Option ℚ
  nextSerial : ℚ
deriving DecidableEq, Repr

/-- The reconciliation block of finalizeCurrentBlock for a known
previous balance and both amount tokens present: keep the pair when it
reconciles, swap it when the swapped orientation reconciles, derive
both amounts from the balance delta when the delta exceeds the
tolerance, and otherwise keep the original pair unchanged. -/
def reconcilePair (prev balance dep wd : ℚ) : ℚ × ℚ :=
  if almostEqualAmount (prev + dep - wd) balance then (dep, wd)
  else if almostEqualAmount (prev + wd - dep) balance then (wd, dep)
  else
    let delta := balance - prev
    if |delta| > (1/100 : ℚ) then
      if delta > 0 then (|delta|, 0) else (0, |delta|)
    else (dep, wd)

/-- Source: finalizeCurrentBlock, as a pure step from the scan state
and one parsed block to the new state and the optionally emitted
transaction.  Opening rows only seed the balances; otherwise the
deposit/withdrawal pair is reconciled against the previous balance
(reconcilePair), a single ambiguous amount is directed by the balance
delta, and a resulting zero/zero pair is discarded without touching the
previous balance. -/
def finalizeParsedBlock (st : DebitPdfScanState) (parsed : ParsedDebitBlock) :
    DebitPdfScanState × Option RawTransaction :=
  if parsed.isOpeningRow then
    (⟨some parsed.balance, some (st.openingBalance.getD parsed.balance),
      st.nextSerial⟩, none)
  else
    let balanceDelta : Option ℚ :=
      match st.previousBalance with
      | some prev => some (parsed.balance - prev)
      | none => none
    let reconciled : Option ℚ × Option ℚ :=
      match st.previousBalance, parsed.depositAmount, parsed.withdrawalAmount with
      | some prev, some dep, some wd =>
        let pq := reconcilePair prev parsed.balance dep wd
        (some pq.1, some pq.2)
      | _, _, _ => (parsed.depositAmount, parsed.withdrawalAmount)
    let singleAmount : Option ℚ :=
      match balanceDelta, parsed.amount with
      | some delta, some a =>
        if |delta| > (1/100 : ℚ) ∧ almostEqualAmount |delta| |a| = false then some |delta|
        else some a
      | _, a => a
    let directed : Option ℚ × Option ℚ :=
      match reconciled.1, reconciled.2, singleAmount with
      | none, none, some a =>
        match balanceDelta with
        | some delta =>
          if delta > 0 then (some a, some 0)
          else if delta < 0 then (some 0, some a)
          else
            match st.previousBalance with
            | some prev =>
              if parsed.balance ≥ prev then (some a, some 0) else (some 0, some a)
            | none => (some 0, some a)
        | none =>
          match st.previousBalance with
          | some prev =>
            if parsed.balance ≥ prev then (some a, some 0) else (some 0, some a)
          | none => (some 0, some a)
      | d, w, _ => (d, w)
    let deposit := directed.1.getD 0
    let withdrawal := directed.2.getD 0
    if deposit = 0 ∧ withdrawal = 0 then (st, none)
    else
      (⟨some parsed.balance,
        some (st.openingBalance.getD (parsed.balance - deposit + withdrawal)),
        st.nextSerial + 1⟩,
       some ⟨st.nextSerial, parsed.date, parsed.date, none, parsed.remarks,
         withdrawal, deposit, parsed.balance, none⟩)

/-- The pair emitted when amounts are derived purely from the balance
delta. -/
def derivedFromDelta (delta deposit withdrawal : ℚ) : Prop :=
  (0 < delta ∧ deposit = |delta| ∧ withdrawal = 0) ∨
    (delta < 0 ∧ deposit = 0 ∧ withdrawal = |delta|)

instance (delta deposit withdrawal : ℚ) :
    Decidable (derivedFromDelta delta deposit withdrawal) := by
  unfold derivedFromDelta; infer_instance

/-! ## Statement date-range reconciliation (resolveStatementDateRange) -/

def listMinInt (x : Int) (xs : List Int) : Int := xs.foldl min x

def listMaxInt (x : Int) (xs : List Int) : Int := xs.foldl max x

/-- Source: resolveStatementDateRange.  Valid declared dates are
modelled as some timestamp; every transaction date in the model is a
finite timestamp, so the finiteness filter of the source is the
identity here. -/
def resolveStatementDateRange (env : JsEnv) (periodFrom periodTo : Option Int)
    (transactions : List RawTransaction) : Int × Int :=
  let txTimes := transactions.map (fun tx => tx.transactionDate)
  match txTimes with
  | [] =>
    let dateFrom := periodFrom.getD env.now
    let dateTo := periodTo.getD dateFrom
    if dateFrom ≤ dateTo then (dateFrom, dateTo) else (dateTo, dateFrom)
  | t :: ts =>
    let minTxDate := listMinInt t ts
    let maxTxDate := listMaxInt t ts
    let thresholdMs : Int := 120 * 24 * 60 * 60 * 1000
    let dateFrom0 := periodFrom.getD minTxDate
    let dateTo0 := periodTo.getD maxTxDate
    let dateFrom := if |dateFrom0 - minTxDate| > thresholdMs then minTxDate else dateFrom0
    let dateTo := if |dateTo0 - maxTxDate| > thresholdMs then maxTxDate else dateTo0
    if dateFrom > dateTo then (minTxDate, maxTxDate) else (dateFrom, dateTo)

/-! ## Credit-card statement, PDF parser (parseCreditTransactionLine) -/

/-- The capture groups of the credit transaction-line grammar: date,
serial, narration, trailing small integer, optional reward-points and
currency-code pair, 2-decimal amount, optional CR suffix group, and
optional trailing detail clause. -/
structure CreditLineCaptures where
  dateToken : String
  serialToken : String
  remarksRaw : String
  rewardPointsToken : String
  rewardPair : Option (String × String)
  amountToken : String
  crSuffix : Bool
  tailToken : Option String
deriving DecidableEq, Repr

/-- The normalized line a set of captures stands for: after whitespace
collapsing every separator of the grammar is a single space, so a match
decomposes the line into exactly this concatenation. -/
def recomposeCreditLine (c : CreditLineCaptures) : String :=
  c.dateToken ++ " " ++ c.serialToken ++ " " ++ c.remarksRaw ++ " " ++
    c.rewardPointsToken ++
    (match c.rewardPair with
     | some pc => " " ++ pc.1 ++ " " ++ pc.2
     | none => "") ++
    " " ++ c.amountToken ++
    (if c.crSuffix then " CR" else "") ++
    (match c.tailToken with
     | some t => " " ++ t
     | none => "")

/-- The case-insensitive whitespace-CR-(whitespace-or-end) test the
source applies to the whole normalized line to decide the credit
direction: true iff some position carries a whitespace character
followed by the letters c r followed by whitespace or the end. -/
def hasCRToken (line : String) : Bool :=
  let l := line.data
  (List.range l.length).any fun i =>
    match l.drop i with
    | a :: b :: c :: rest =>
      isWsChar a && (asciiLowerChar b == 'c') && (asciiLowerChar c == 'r') &&
        (match rest with
         | [] => true
         | d :: _ => isWsChar d)
    | _ => false

def creditBannerStarts : List String :=
  ["# International Spends", "Credit Limit", "ICICI Bank Credit Card GST",
   "EARNINGS", "IMPORTANT", "For any query", "Our registered office",
   "Safe Banking Tips", "Please pay your Credit Card"]

/-- Case-insensitive anchored-literal test with a trailing word
boundary: every banner alternative ends in a word character, so the
boundary holds iff the next character is absent or not a word
character. -/
def startsWithBannerCI (tail banner : String) : Bool :=
  listStarts (banner.data.map asciiLowerChar) (tail.data.map asciiLowerChar) &&
    (match tail.data.drop banner.data.length with
     | [] => true
     | d :: _ => !isWordChar d)

/-- Source: sanitizeCreditTransactionTail. -/
def sanitizeCreditTransactionTail (tailRaw : String) : String :=
  let t := trimStr (collapseWs tailRaw)
  if t = "" then ""
  else if creditBannerStarts.any (fun b => startsWithBannerCI t b) then ""
  else if 140 < t.data.length &&
      (["EARNINGS", "IMPORTANT", "registered office", "Safe Banking",
        "payment due date"].any fun w => containsStr (lowerStr t) (lowerStr w)) then
    ""
  else t

/-- Source: parseCreditTransactionLine, from the match captures
onward.  The credit test runs over the whole recomposed line, the
balance of this statement type is fixed at zero, and a missing
narration or non-finite amount yields null. -/
def parseCreditTransactionLine (env : JsEnv) (captures : CreditLineCaptures)
    (fallbackSerial : ℚ) : Option RawTransaction :=
  let normalizedLine := recomposeCreditLine captures
  let serialNo : ℚ :=
    match parseIntJS captures.serialToken with
    | some n => if n = 0 then fallbackSerial else (n : ℚ)
    | none => fallbackSerial
  let rewardPoints : ℚ :=
    match parseIntJS captures.rewardPointsToken with
    | some n => (n : ℚ)
    | none => 0
  let trailingDetails :=
    match captures.tailToken with
    | some t => sanitizeCreditTransactionTail t
    | none => ""
  let remarks :=
    trimStr (joinStr " "
      (([trimStr captures.remarksRaw, trailingDetails].filter (fun s => s ≠ ""))))
  let date := parseIndianDate env captures.dateToken
  let isCredit := hasCRToken normalizedLine
  match parseFloatJS (removeCommas captures.amountToken) with
  | none => none
  | some amount =>
    if remarks = "" then none
    else
      some ⟨serialNo, date, date, none, remarks,
        (if isCredit then 0 else amount),
        (if isCredit then amount else 0),
        0, some rewardPoints⟩

instance {ε α : Type} [DecidableEq ε] [DecidableEq α] : DecidableEq (Except ε α) :=
  fun a b =>
    match a, b with
    | Except.error x, Except.error y =>
      if h : x = y then isTrue (congrArg Except.error h)
      else isFalse (fun hc => h (Except.error.inj hc))
    | Except.error _, Except.ok _ => isFalse (fun hc => Except.noConfusion hc)
    | Except.ok _, Except.error _ => isFalse (fun hc => Except.noConfusion hc)
    | Except.ok x, Except.ok y =>
      if h : x = y then isTrue (congrArg Except.ok h)
      else isFalse (fun hc => h (Except.ok.inj hc))

/-! ## Concrete fixtures shared by witnesses and counterexamples -/

attribute [local semireducible] Rat.mul Rat.inv Rat.add Rat.sub

/-- Engine oracle under which no boundary pattern matches and every
dynamic regex fails to compile. -/
def engineNone : JsRegexEngine := ⟨fun _ _ => false, fun _ _ => none⟩

/-- Date environment with clock 0 and trivial calendar primitives. -/
def envZero : JsEnv := ⟨0, fun _ _ _ => 0, fun _ => 0⟩

/-- Same engine primitives as envZero but with clock 1. -/
def envNow1 : JsEnv := ⟨1, fun _ _ _ => 0, fun _ => 0⟩

def optsNone : CategorizationOptions := ⟨none⟩

def rule60 : CategorizationRule :=
  ⟨25, "food", RuleType.keyword, "ABCDEFGHIJ", RuleField.remarks, none, none⟩

def tx60 : ScoreInput := ⟨"XABCDEFGHIJ", none, 5, 0⟩

def rule59 : CategorizationRule :=
  ⟨23, "food59", RuleType.keyword, "ABCDEFGH", RuleField.remarks, none, none⟩

def tx59 : ScoreInput := ⟨"XABCDEFGHX", none, 5, 0⟩

/-! ## C1: the 60-point rule threshold -/

/-- C1: categorizeTransaction returns the winning rule category id
exactly when the best match score reaches 60; below the threshold the
result is the hint-or-fallback continuation instead. -/
theorem c1_rule_score_threshold (E : JsRegexEngine) (t : ScoreInput)
    (rules : List CategorizationRule) (opts : CategorizationOptions)
    (b : BestMatch) (hb : bestRuleMatch E t rules = some b) :
    (60 ≤ b.score → categorizeTransaction E t rules opts = b.categoryId) ∧
    (b.score < 60 → categorizeTransaction E t rules opts = hintOrFallback t opts) := by
  have hcat : categorizeTransaction E t rules opts =
      if 60 ≤ b.score then b.categoryId else hintOrFallback t opts := by
    simp only [categorizeTransaction, hb]
  refine ⟨fun h => ?_, fun h => ?_⟩ <;> rw [hcat]
  · exact if_pos h
  · exact if_neg (not_le.mpr h)

/-- C1 witness: a concrete best score of exactly 60 takes the rule
path, and a concrete best score of exactly 59 takes the hint/fallback
continuation. -/
theorem c1_rule_score_threshold_witness :
    bestRuleMatch engineNone tx60 [rule60] = some ⟨"food", 60, 25⟩ ∧
    categorizeTransaction engineNone tx60 [rule60] optsNone = "food" ∧
    bestRuleMatch engineNone tx59 [rule59] = some ⟨"food59", 59, 23⟩ ∧
    categorizeTransaction engineNone tx59 [rule59] optsNone =
      hintOrFallback tx59 optsNone := by
  have h60 : bestRuleMatch engineNone tx60 [rule60] = some ⟨"food", 60, 25⟩ := by
    decide
  have h59 : bestRuleMatch engineNone tx59 [rule59] = some ⟨"food59", 59, 23⟩ := by
    decide
  exact ⟨h60, (c1_rule_score_threshold _ _ _ _ _ h60).1 (by norm_num),
    h59, (c1_rule_score_threshold _ _ _ _ _ h59).2 (by norm_num)⟩

/-! ## C2: totality and non-emptiness of categorization -/

lemma fallbackCategory_mem (t : ScoreInput) :
    fallbackCategory t = "transfers" ∨ fallbackCategory t = "salary" ∨
      fallbackCategory t = "refunds" ∨ fallbackCategory t = "income" ∨
      fallbackCategory t = "uncategorized" := by
  simp only [fallbackCategory]
  split_ifs <;> simp

lemma fallbackCategory_ne_empty (t : ScoreInput) : fallbackCategory t ≠ "" := by
  simp only [fallbackCategory]
  split_ifs <;> decide

lemma hintOrFallback_ne_empty (t : ScoreInput) (opts : CategorizationOptions) :
    hintOrFallback t opts ≠ "" := by
  simp only [hintOrFallback]
  cases h : categoryFromHints t opts.merchantHints with
  | none => exact fallbackCategory_ne_empty t
  | some hinted =>
    dsimp only
    by_cases he : hinted = ""
    · rw [if_pos he]; exact fallbackCategory_ne_empty t
    · rw [if_neg he]; exact he

lemma bestMatchStep_cases (E : JsRegexEngine) (t : ScoreInput)
    (acc : Option BestMatch) (r : CategorizationRule) :
    bestMatchStep E t acc r = acc ∨
      ∃ s, bestMatchStep E t acc r = some ⟨r.categoryId, s, r.priority⟩ := by
  unfold bestMatchStep
  by_cases h : getRuleMatchScore E t r ≤ 0
  · rw [if_pos h]; exact Or.inl rfl
  · rw [if_neg h]
    cases acc with
    | none => exact Or.inr ⟨_, rfl⟩
    | some b =>
      dsimp only
      by_cases hc : getRuleMatchScore E t r > b.score ∨
          (getRuleMatchScore E t r = b.score ∧ r.priority < b.priority)
      · rw [if_pos hc]; exact Or.inr ⟨_, rfl⟩
      · rw [if_neg hc]; exact Or.inl rfl

lemma foldl_bestMatchStep_mem (E : JsRegexEngine) (t : ScoreInput) :
    ∀ (rules : List CategorizationRule) (acc : Option BestMatch) (b : BestMatch),
      rules.foldl (bestMatchStep E t) acc = some b →
      acc = some b ∨ b.categoryId ∈ rules.map (fun r => r.categoryId) := by
  intro rules
  induction rules with
  | nil => intro acc b h; exact Or.inl h
  | cons r rest ih =>
    intro acc b h
    rcases ih (bestMatchStep E t acc r) b h with hacc | hmem
    · rcases bestMatchStep_cases E t acc r with he | ⟨s, he⟩
      · exact Or.inl (he ▸ hacc)
      · rw [he] at hacc
        refine Or.inr ?_
        rw [Option.some_inj] at hacc
        rw [← hacc]
        exact List.mem_cons_self _ _
    · exact Or.inr (List.mem_cons_of_mem _ hmem)

/-- C2 counterexample: with a rule list containing a matching rule
whose categoryId is the empty string, categorizeTransaction returns
the empty string, so the claim that it always returns a non-empty
categoryId for every rule list fails. -/
theorem c2_counterexample :
    categorizeTransaction engineNone ⟨"HELLO", none, 100, 0⟩
      [⟨1, "", RuleType.amount, "", RuleField.remarks, none, none⟩] optsNone = "" := by
  decide

/-- C2 amended: categorizeTransaction is total by construction and
returns a non-empty categoryId provided every supplied rule has a
non-empty categoryId (hinted categories and the fixed fallbacks are
never empty); a regex rule whose pattern fails to compile scores 0;
and the fixed fallback chain only ever produces one of the five
documented category ids, "uncategorized" in the worst case. -/
theorem c2_total_categorization (E : JsRegexEngine) (t : ScoreInput)
    (rules : List CategorizationRule) (opts : CategorizationOptions)
    (hrules : ∀ r ∈ rules, r.categoryId ≠ "") :
    categorizeTransaction E t rules opts ≠ "" ∧
    (∀ r : CategorizationRule, r.type = RuleType.regex →
      E.regexTest r.pattern (ruleFieldText t r) = none →
      getRuleMatchScore E t r = 0) ∧
    (fallbackCategory t = "transfers" ∨ fallbackCategory t = "salary" ∨
      fallbackCategory t = "refunds" ∨ fallbackCategory t = "income" ∨
      fallbackCategory t = "uncategorized") := by
  refine ⟨?_, ?_, fallbackCategory_mem t⟩
  · simp only [categorizeTransaction]
    cases hb : bestRuleMatch E t rules with
    | none => exact hintOrFallback_ne_empty t opts
    | some b =>
      dsimp only
      by_cases hs : 60 ≤ b.score
      · rw [if_pos hs]
        rcases foldl_bestMatchStep_mem E t rules none b hb with hc | hc
        · exact absurd hc (by simp)
        · rcases List.mem_map.mp hc with ⟨r, hr, hcat⟩
          exact hcat ▸ hrules r hr
      · rw [if_neg hs]
        exact hintOrFallback_ne_empty t opts
  · intro r hty hre
    unfold getRuleMatchScore
    cases hmin : r.minAmount <;> cases hmax : r.maxAmount <;>
      simp only [hty, hre, hmin, hmax] <;> split_ifs <;> rfl

/-- C2 witness: a concrete instantiation with non-empty rule category
ids, a failing regex rule, and a transaction reaching the
"uncategorized" fallback. -/
theorem c2_total_categorization_witness :
    categorizeTransaction engineNone ⟨"HELLO", none, 7, 0⟩
      [⟨1, "food", RuleType.regex, "(", RuleField.remarks, none, none⟩] optsNone ≠ "" ∧
    getRuleMatchScore engineNone ⟨"HELLO", none, 7, 0⟩
      ⟨1, "food", RuleType.regex, "(", RuleField.remarks, none, none⟩ = 0 ∧
    categorizeTransaction engineNone ⟨"HELLO", none, 7, 0⟩
      [⟨1, "food", RuleType.regex, "(", RuleField.remarks, none, none⟩] optsNone =
      "uncategorized" := by
  have h := c2_total_categorization engineNone ⟨"HELLO", none, 7, 0⟩
    [⟨1, "food", RuleType.regex, "(", RuleField.remarks, none, none⟩] optsNone
    (by intro r hr; simp at hr; rw [hr]; decide)
  exact ⟨h.1, h.2.1 _ rfl rfl, by decide⟩

/-! ## C10: the amount inspected by the min/max gate -/

/-- The same rule with both amount bounds removed. -/
def unboundedRule (r : CategorizationRule) : CategorizationRule :=
  ⟨r.priority, r.categoryId, r.type, r.pattern, r.field, none, none⟩

/-- C10: for a rule with a minAmount or maxAmount bound the gated
amount is the withdrawal amount whenever it is non-zero and the deposit
amount otherwise; an out-of-range gated amount forces score 0, and an
in-range gated amount leaves the score equal to that of the unbounded
rule. -/
theorem c10_amount_gate (E : JsRegexEngine) (t : ScoreInput)
    (r : CategorizationRule) (hbounds : r.minAmount ≠ none ∨ r.maxAmount ≠ none) :
    (t.withdrawalAmount ≠ 0 → gateAmount t = t.withdrawalAmount) ∧
    (t.withdrawalAmount = 0 → gateAmount t = t.depositAmount) ∧
    (∀ m, r.minAmount = some m → gateAmount t < m → getRuleMatchScore E t r = 0) ∧
    (∀ m, r.maxAmount = some m → m < gateAmount t → getRuleMatchScore E t r = 0) ∧
    ((∀ m, r.minAmount = some m → m ≤ gateAmount t) →
      (∀ m, r.maxAmount = some m → gateAmount t ≤ m) →
      getRuleMatchScore E t r = getRuleMatchScore E t (unboundedRule r)) := by
  refine ⟨fun h => by unfold gateAmount; rw [if_pos h],
    fun h => by unfold gateAmount; rw [if_neg (by simpa using h)], ?_, ?_, ?_⟩
  · intro m hm hlt
    simp only [getRuleMatchScore, hm]
    simp [hlt]
  · intro m hm hlt
    simp only [getRuleMatchScore, hm]
    cases hmin : r.minAmount <;> simp [hlt]
  · intro hmin hmax
    cases h1 : r.minAmount with
    | none =>
      cases h2 : r.maxAmount with
      | none =>
        simp only [getRuleMatchScore, unboundedRule, h1, h2]
        rfl
      | some m =>
        have hng : ¬gateAmount t > m := not_lt.mpr (hmax m h2)
        simp only [getRuleMatchScore, unboundedRule, h1, h2]
        simp only [hng, decide_eq_true_eq, if_neg, if_false, decide_False]
        rfl
    | some m =>
      have hnl : ¬gateAmount t < m := not_lt.mpr (hmin m h1)
      cases h2 : r.maxAmount with
      | none =>
        simp only [getRuleMatchScore, unboundedRule, h1, h2]
        simp only [hnl, decide_eq_true_eq, if_neg, if_false, decide_False]
        rfl
      | some m2 =>
        have hng : ¬gateAmount t > m2 := not_lt.mpr (hmax m2 h2)
        simp only [getRuleMatchScore, unboundedRule, h1, h2]
        simp only [hnl, hng, decide_eq_true_eq, if_neg, if_false, decide_False]
        rfl

/-- C10 witness: with a positive withdrawal and a large deposit, a
min-bound rule is gated on the withdrawal, so the rule scores 0 even
though the deposit alone would pass the bound. -/
theorem c10_amount_gate_witness :
    gateAmount ⟨"X", none, 50, 500⟩ = 50 ∧
    getRuleMatchScore engineNone ⟨"X", none, 50, 500⟩
      ⟨1, "big", RuleType.amount, "", RuleField.remarks, some 100, none⟩ = 0 := by
  have h := c10_amount_gate engineNone ⟨"X", none, 50, 500⟩
    ⟨1, "big", RuleType.amount, "", RuleField.remarks, some 100, none⟩
    (Or.inl (by simp))
  exact ⟨h.1 (by norm_num), h.2.2.1 100 rfl (by decide)⟩

/-! ## C3: debit-PDF balance reconciliation -/

/-- C3 counterexample: a block with both amount tokens, a known
previous balance, an unreconcilable pair in either orientation and a
zero balance delta is emitted with the original amounts unchanged, so
the emitted transaction neither reconciles within 0.01 nor was derived
from the balance delta. -/
theorem c3_counterexample :
    (finalizeParsedBlock ⟨some 100, some 100, 2⟩
        ⟨0, "X", 100, none, some 50, some 30, false⟩).2 =
      some ⟨2, 0, 0, none, "X", 30, 50, 100, none⟩ ∧
    ¬(|(100 : ℚ) + 50 - 30 - 100| < (1/100 : ℚ)) ∧
    ¬derivedFromDelta ((100 : ℚ) - 100) 50 30 := by
  refine ⟨by decide, by decide, by decide⟩

lemma reconcilePair_spec (prev balance dep wd : ℚ)
    (hrec : almostEqualAmount (prev + dep - wd) balance = true ∨
      almostEqualAmount (prev + wd - dep) balance = true ∨
      |balance - prev| > (1/100 : ℚ)) :
    |prev + (reconcilePair prev balance dep wd).1 -
      (reconcilePair prev balance dep wd).2 - balance| < (1/100 : ℚ) := by
  unfold reconcilePair
  by_cases hA : almostEqualAmount (prev + dep - wd) balance = true
  · rw [if_pos hA]
    exact of_decide_eq_true hA
  · rw [if_neg hA]
    by_cases hB : almostEqualAmount (prev + wd - dep) balance = true
    · rw [if_pos hB]
      exact of_decide_eq_true hB
    · rw [if_neg hB]
      have hC : |balance - prev| > (1/100 : ℚ) := by
        rcases hrec with h | h | h
        · exact absurd h hA
        · exact absurd h hB
        · exact h
      rw [if_pos hC]
      have hC0 : balance - prev ≠ 0 := by
        intro h0
        rw [h0] at hC
        norm_num at hC
      by_cases hD : balance - prev > 0
      · rw [if_pos hD]
        have h0 : prev + |balance - prev| - 0 - balance = 0 := by
          rw [abs_of_pos hD]; ring
        simp only [h0]
        norm_num
      · rw [if_neg hD]
        have hdn : balance - prev < 0 := lt_of_le_of_ne (not_lt.mp hD) hC0
        have h0 : prev + 0 - |balance - prev| - balance = 0 := by
          rw [abs_of_neg hdn]; ring
        simp only [h0]
        norm_num

/-- C3 amended: for every emitted debit-PDF transaction whose block
carried both a deposit and a withdrawal token with a known previous
balance, previousBalance + deposit - withdrawal reconciles with the
emitted balance within 0.01 PROVIDED one of the three repair cases
applies: the original pair reconciles, the swapped pair reconciles, or
the balance delta exceeds the 0.01 tolerance (the delta-derived pair
then reconciles exactly); when none applies the code emits the
unreconciled original amounts. -/
theorem c3_balance_reconciliation (st : DebitPdfScanState)
    (parsed : ParsedDebitBlock) (prev d w : ℚ) (t : RawTransaction)
    (hprev : st.previousBalance = some prev)
    (hd : parsed.depositAmount = some d)
    (hw : parsed.withdrawalAmount = some w)
    (hop : parsed.isOpeningRow = false)
    (hrec : almostEqualAmount (prev + d - w) parsed.balance = true ∨
      almostEqualAmount (prev + w - d) parsed.balance = true ∨
      |parsed.balance - prev| > (1/100 : ℚ))
    (hout : (finalizeParsedBlock st parsed).2 = some t) :
    |prev + t.depositAmount - t.withdrawalAmount - t.balance| < (1/100 : ℚ) := by
  simp only [finalizeParsedBlock, hprev, hd, hw, hop, Bool.false_eq_true,
    if_false, Option.getD_some] at hout
  by_cases hz : (reconcilePair prev parsed.balance d w).1 = 0 ∧
      (reconcilePair prev parsed.balance d w).2 = 0
  · rw [if_pos hz] at hout
    exact absurd hout (by simp)
  · rw [if_neg hz] at hout
    rw [← Option.some_inj.mp hout]
    exact reconcilePair_spec prev parsed.balance d w hrec

/-- C3 witness: a reconciling block (the running example of the spec)
is emitted unchanged and satisfies the invariant. -/
theorem c3_balance_reconciliation_witness :
    (finalizeParsedBlock ⟨some 4900, some 4900, 2⟩
        ⟨0, "UPI/SWIGGY/xyz", 5200, none, some 300, some 0, false⟩).2 =
      some ⟨2, 0, 0, none, "UPI/SWIGGY/xyz", 0, 300, 5200, none⟩ ∧
    |(4900 : ℚ) + 300 - 0 - 5200| < (1/100 : ℚ) := by
  have h := c3_balance_reconciliation ⟨some 4900, some 4900, 2⟩
    ⟨0, "UPI/SWIGGY/xyz", 5200, none, some 300, some 0, false⟩ 4900 300 0
    ⟨2, 0, 0, none, "UPI/SWIGGY/xyz", 0, 300, 5200, none⟩
    rfl rfl rfl rfl (Or.inl (by decide)) (by decide)
  exact ⟨by decide, h⟩

/-! ## C8: statement date-range resolution -/

/-- m is the minimum of the list. -/
def isMinOfInt (m : Int) (l : List Int) : Prop := m ∈ l ∧ ∀ y ∈ l, m ≤ y

/-- m is the maximum of the list. -/
def isMaxOfInt (m : Int) (l : List Int) : Prop := m ∈ l ∧ ∀ y ∈ l, y ≤ m

lemma listMinInt_mem (x : Int) (xs : List Int) : listMinInt x xs ∈ x :: xs := by
  induction xs generalizing x with
  | nil => exact List.mem_singleton.mpr rfl
  | cons a t ih =>
    have h : listMinInt x (a :: t) = listMinInt (min x a) t := rfl
    rw [h]
    rcases List.mem_cons.mp (ih (min x a)) with hm | hm
    · rw [hm]
      rcases min_choice x a with hc | hc <;> rw [hc]
      · exact List.mem_cons_self _ _
      · exact List.mem_cons_of_mem _ (List.mem_cons_self _ _)
    · exact List.mem_cons_of_mem _ (List.mem_cons_of_mem _ hm)

lemma listMinInt_le (x : Int) (xs : List Int) :
    ∀ y ∈ x :: xs, listMinInt x xs ≤ y := by
  induction xs generalizing x with
  | nil => intro y hy; rw [List.mem_singleton.mp hy]; exact le_refl _
  | cons a t ih =>
    intro y hy
    have h : listMinInt x (a :: t) = listMinInt (min x a) t := rfl
    rw [h]
    rcases List.mem_cons.mp hy with hx | hy2
    · calc listMinInt (min x a) t ≤ min x a := ih (min x a) _ (List.mem_cons_self _ _)
        _ ≤ x := min_le_left _ _
        _ = y := hx.symm
    · rcases List.mem_cons.mp hy2 with ha | ht
      · calc listMinInt (min x a) t ≤ min x a := ih (min x a) _ (List.mem_cons_self _ _)
          _ ≤ a := min_le_right _ _
          _ = y := ha.symm
      · exact ih (min x a) y (List.mem_cons_of_mem _ ht)

lemma listMaxInt_mem (x : Int) (xs : List Int) : listMaxInt x xs ∈ x :: xs := by
  induction xs generalizing x with
  | nil => exact List.mem_singleton.mpr rfl
  | cons a t ih =>
    have h : listMaxInt x (a :: t) = listMaxInt (max x a) t := rfl
    rw [h]
    rcases List.mem_cons.mp (ih (max x a)) with hm | hm
    · rw [hm]
      rcases max_choice x a with hc | hc <;> rw [hc]
      · exact List.mem_cons_self _ _
      · exact List.mem_cons_of_mem _ (List.mem_cons_self _ _)
    · exact List.mem_cons_of_mem _ (List.mem_cons_of_mem _ hm)

lemma listMaxInt_ge (x : Int) (xs : List Int) :
    ∀ y ∈ x :: xs, y ≤ listMaxInt x xs := by
  induction xs generalizing x with
  | nil => intro y hy; rw [List.mem_singleton.mp hy]; exact le_refl _
  | cons a t ih =>
    intro y hy
    have h : listMaxInt x (a :: t) = listMaxInt (max x a) t := rfl
    rw [h]
    rcases List.mem_cons.mp hy with hx | hy2
    · calc y = x := hx
        _ ≤ max x a := le_max_left _ _
        _ ≤ listMaxInt (max x a) t := ih (max x a) _ (List.mem_cons_self _ _)
    · rcases List.mem_cons.mp hy2 with ha | ht
      · calc y = a := ha
          _ ≤ max x a := le_max_right _ _
          _ ≤ listMaxInt (max x a) t := ih (max x a) _ (List.mem_cons_self _ _)
      · exact ih (max x a) y (List.mem_cons_of_mem _ ht)

/-- C8 counterexample: a valid but inverted declared period whose
bounds are both within 120 days of the transaction bounds is NOT kept;
the code falls back to the transaction-derived bounds, while the
per-bound substitution policy of the claim would keep the declared
(10, 0). -/
theorem c8_counterexample :
    resolveStatementDateRange envZero (some 10) (some 0)
      [⟨1, 0, 0, none, "T", 0, 0, 0, none⟩,
       ⟨2, 0, 10, none, "T", 0, 0, 0, none⟩] = (0, 10) ∧
    ((if |(10 : Int) - 0| > 120 * 24 * 60 * 60 * 1000 then (0 : Int) else 10),
      (if |(0 : Int) - 10| > 120 * 24 * 60 * 60 * 1000 then (10 : Int) else 0)) =
      (10, 0) ∧
    ((0 : Int), (10 : Int)) ≠ ((10 : Int), (0 : Int)) := by
  refine ⟨by decide, by decide, by decide⟩

/-- C8 amended: with a valid declared period and a non-empty
transaction list, each resolved bound equals the declared value unless
it diverges from the corresponding transaction bound by more than 120
days, in which case the transaction bound is substituted; additionally,
when the per-bound result is inverted (from after to), both bounds are
replaced by the transaction-derived min/max. -/
theorem c8_date_range (env : JsEnv) (f t : Int) (txs : List RawTransaction)
    (m M : Int) (hne : txs ≠ [])
    (hm : isMinOfInt m (txs.map (fun tx => tx.transactionDate)))
    (hM : isMaxOfInt M (txs.map (fun tx => tx.transactionDate))) :
    resolveStatementDateRange env (some f) (some t) txs =
      ((fun dateFrom dateTo =>
        if dateFrom > dateTo then (m, M) else (dateFrom, dateTo))
        (if |f - m| > 120 * 24 * 60 * 60 * 1000 then m else f)
        (if |t - M| > 120 * 24 * 60 * 60 * 1000 then M else t)) := by
  cases htx : txs.map (fun tx => tx.transactionDate) with
  | nil => exact absurd (List.map_eq_nil_iff.mp htx) hne
  | cons a l =>
    rw [htx] at hm hM
    have hmin : listMinInt a l = m :=
      le_antisymm (listMinInt_le a l m hm.1) (hm.2 _ (listMinInt_mem a l))
    have hmax : listMaxInt a l = M :=
      le_antisymm (hM.2 _ (listMaxInt_mem a l)) (listMaxInt_ge a l M hM.1)
    simp only [resolveStatementDateRange, htx, Option.getD_some, hmin, hmax]

/-- C8 witness: a declared period consistent with the transaction
dates is kept unchanged. -/
theorem c8_date_range_witness :
    resolveStatementDateRange envZero (some 5) (some 8)
      [⟨1, 0, 0, none, "T", 0, 0, 0, none⟩,
       ⟨2, 0, 10, none, "T", 0, 0, 0, none⟩] = (5, 8) := by
  have h := c8_date_range envZero 5 8
    [⟨1, 0, 0, none, "T", 0, 0, 0, none⟩,
     ⟨2, 0, 10, none, "T", 0, 0, 0, none⟩] 0 10
    (by simp) (by constructor <;> decide) (by constructor <;> decide)
  rw [h]
  decide

/-! ## C6: merchant hint thresholds -/

lemma mapGet_mapSet_self {α : Type} (m : List (String × α)) (k : String) (v : α) :
    mapGet (mapSet m k v) k = some v := by
  induction m with
  | nil => simp [mapSet, mapGet]
  | cons e t ih =>
    obtain ⟨k0, v0⟩ := e
    by_cases h : k0 = k
    · simp [mapSet, mapGet, h]
    · simp [mapSet, mapGet, h, ih]

lemma mapGet_mapSet_ne {α : Type} (m : List (String × α)) (k k2 : String) (v : α)
    (h : k2 ≠ k) : mapGet (mapSet m k v) k2 = mapGet m k2 := by
  induction m with
  | nil =>
    simp only [mapSet, mapGet]
    rw [if_neg (fun he : k = k2 => h he.symm)]
  | cons e t ih =>
    obtain ⟨k0, v0⟩ := e
    simp only [mapSet]
    by_cases h0 : k0 = k
    · rw [if_pos h0]
      have hne : ¬k0 = k2 := fun he => h (he ▸ h0)
      simp only [mapGet]
      rw [if_neg hne, if_neg hne]
    · rw [if_neg h0]
      simp only [mapGet]
      by_cases h2 : k0 = k2
      · rw [if_pos h2, if_pos h2]
      · rw [if_neg h2, if_neg h2]
        exact ih

/-- The key list of an association-list map. -/
def mapKeys {α : Type} (m : List (String × α)) : List String := m.map Prod.fst

lemma mapKeys_cons {α : Type} (k0 : String) (v0 : α) (t : List (String × α)) :
    mapKeys ((k0, v0) :: t) = k0 :: mapKeys t := rfl

lemma mem_mapKeys_mapSet {α : Type} (m : List (String × α)) (k k2 : String)
    (v : α) (h : k2 ∈ mapKeys (mapSet m k v)) : k2 = k ∨ k2 ∈ mapKeys m := by
  induction m with
  | nil =>
    simp only [mapSet, mapKeys, List.map_cons, List.map_nil] at h
    exact Or.inl (List.mem_singleton.mp h)
  | cons e t ih =>
    obtain ⟨k0, v0⟩ := e
    simp only [mapSet] at h
    by_cases h0 : k0 = k
    · rw [if_pos h0, mapKeys_cons] at h
      rcases List.mem_cons.mp h with h2 | h2
      · rw [mapKeys_cons]
        exact Or.inr (List.mem_cons.mpr (Or.inl h2))
      · rw [mapKeys_cons]
        exact Or.inr (List.mem_cons.mpr (Or.inr h2))
    · rw [if_neg h0, mapKeys_cons] at h
      rcases List.mem_cons.mp h with h2 | h2
      · rw [mapKeys_cons]
        exact Or.inr (List.mem_cons.mpr (Or.inl h2))
      · rcases ih h2 with h3 | h3
        · exact Or.inl h3
        · rw [mapKeys_cons]
          exact Or.inr (List.mem_cons.mpr (Or.inr h3))

lemma nodup_mapKeys_mapSet {α : Type} (m : List (String × α)) (k : String) (v : α)
    (h : (mapKeys m).Nodup) : (mapKeys (mapSet m k v)).Nodup := by
  induction m with
  | nil => simp [mapSet, mapKeys]
  | cons e t ih =>
    obtain ⟨k0, v0⟩ := e
    rw [mapKeys_cons, List.nodup_cons] at h
    simp only [mapSet]
    by_cases h0 : k0 = k
    · rw [if_pos h0, mapKeys_cons, List.nodup_cons]
      exact h
    · rw [if_neg h0, mapKeys_cons, List.nodup_cons]
      refine ⟨?_, ih h.2⟩
      intro hmem
      rcases mem_mapKeys_mapSet t k k0 v hmem with h2 | h2
      · exact h0 h2
      · exact h.1 h2

lemma mapGet_eq_none_of_not_mem {α : Type} (m : List (String × α)) (k : String)
    (h : k ∉ mapKeys m) : mapGet m k = none := by
  induction m with
  | nil => rfl
  | cons e t ih =>
    obtain ⟨k0, v0⟩ := e
    rw [mapKeys_cons] at h
    simp only [List.mem_cons, not_or] at h
    simp only [mapGet]
    rw [if_neg (fun he => h.1 he.symm)]
    exact ih h.2

lemma nodup_keys_buildStatsStep (acc : List (String × MerchantStats))
    (tx : HistoricalCategorizedTransaction) (h : (mapKeys acc).Nodup) :
    (mapKeys (buildStatsStep acc tx)).Nodup := by
  simp only [buildStatsStep]
  split_ifs
  · exact h
  · exact h
  · exact nodup_mapKeys_mapSet _ _ _ h

lemma nodup_keys_buildMerchantStats
    (hist : List HistoricalCategorizedTransaction) :
    (mapKeys (buildMerchantStats hist)).Nodup := by
  have aux : ∀ (l : List HistoricalCategorizedTransaction)
      (acc : List (String × MerchantStats)), (mapKeys acc).Nodup →
      (mapKeys (l.foldl buildStatsStep acc)).Nodup := by
    intro l
    induction l with
    | nil => intro acc h; exact h
    | cons tx rest ih =>
      intro acc h
      exact ih _ (nodup_keys_buildStatsStep acc tx h)
  exact aux hist [] (by simp [mapKeys])

lemma mapGet_hintsFold :
    ∀ (l : List (String × MerchantStats))
      (acc : List (String × MerchantCategoryHint)) (key : String),
      (mapKeys l).Nodup →
      (∀ k, k ∈ mapKeys l → mapGet acc k = none) →
      mapGet (l.foldl hintsFoldStep acc) key =
        (match mapGet l key with
         | some v => hintOfStats v
         | none => mapGet acc key) := by
  intro l
  induction l with
  | nil => intro acc key _ _; rfl
  | cons e t ih =>
    obtain ⟨k0, v0⟩ := e
    intro acc key hnd hacc
    have hnd2 := List.nodup_cons.mp (by rw [← mapKeys_cons]; exact hnd)
    have hk0 : k0 ∉ mapKeys t := hnd2.1
    have hndt : (mapKeys t).Nodup := hnd2.2
    rw [List.foldl_cons]
    cases hh : hintOfStats v0 with
    | none =>
      have hstep : hintsFoldStep acc (k0, v0) = acc := by
        simp [hintsFoldStep, hh]
      rw [hstep, ih acc key hndt
        (fun k hk => hacc k
          (by rw [mapKeys_cons]; exact List.mem_cons_of_mem _ hk))]
      by_cases hkey : k0 = key
      · have hget : mapGet ((k0, v0) :: t) key = some v0 := by
          simp [mapGet, hkey]
        have ht : mapGet t key = none :=
          mapGet_eq_none_of_not_mem t key (hkey ▸ hk0)
        rw [hget, ht]
        dsimp only
        rw [hh]
        exact hacc key (by rw [mapKeys_cons, hkey]; exact List.mem_cons_self _ _)
      · have hget : mapGet ((k0, v0) :: t) key = mapGet t key := by
          simp [mapGet, hkey]
        rw [hget]
    | some h =>
      have hstep : hintsFoldStep acc (k0, v0) = mapSet acc k0 h := by
        simp [hintsFoldStep, hh]
      have hacc2 : ∀ k, k ∈ mapKeys t → mapGet (mapSet acc k0 h) k = none := by
        intro k hk
        have hne : k ≠ k0 := fun he => hk0 (he ▸ hk)
        rw [mapGet_mapSet_ne acc k0 k h hne]
        exact hacc k (by rw [mapKeys_cons]; exact List.mem_cons_of_mem _ hk)
      rw [hstep, ih (mapSet acc k0 h) key hndt hacc2]
      by_cases hkey : k0 = key
      · have hget : mapGet ((k0, v0) :: t) key = some v0 := by
          simp [mapGet, hkey]
        have ht : mapGet t key = none :=
          mapGet_eq_none_of_not_mem t key (hkey ▸ hk0)
        rw [hget, ht]
        dsimp only
        rw [hh, ← hkey, mapGet_mapSet_self]
      · have hget : mapGet ((k0, v0) :: t) key = mapGet t key := by
          simp [mapGet, hkey]
        rw [hget]
        cases hmt : mapGet t key with
        | some v => rfl
        | none =>
          dsimp only
          exact mapGet_mapSet_ne acc k0 key h (fun he => hkey he.symm)

/-- C6: a hint is stored for a merchant key exactly when the grouped
statistics of that key pass the thresholds (the lookup equals the
grouped entry filtered through hintOfStats); every stored hint carries
the majority-category count at least 2 and confidence
count/total at least 0.65; and hint lookup applies a stored hint only
under the same thresholds. -/
theorem c6_hint_thresholds :
    (∀ (hist : List HistoricalCategorizedTransaction) (key : String),
      mapGet (buildMerchantHints hist) key =
        (mapGet (buildMerchantStats hist) key).bind hintOfStats) ∧
    (∀ (stats : MerchantStats) (h : MerchantCategoryHint),
      hintOfStats stats = some h →
      2 ≤ h.count ∧ (13/20 : ℚ) ≤ h.confidence ∧
      ∃ top, pickTopCategory stats.byCategory = some top ∧
        h.categoryId = top.1 ∧ h.count = top.2 ∧
        h.confidence = (top.2 : ℚ) / (stats.total : ℚ)) ∧
    (∀ (t : ScoreInput) (hints : List (String × MerchantCategoryHint))
      (c : String), categoryFromHints t (some hints) = some c →
      ∃ m h, t.merchantName = some m ∧
        mapGet hints (normalizeMerchantKey m) = some h ∧
        2 ≤ h.count ∧ (13/20 : ℚ) ≤ h.confidence ∧ c = h.categoryId) := by
  refine ⟨?_, ?_, ?_⟩
  · intro hist key
    unfold buildMerchantHints
    rw [mapGet_hintsFold (buildMerchantStats hist) [] key
      (nodup_keys_buildMerchantStats hist) (fun k _ => rfl)]
    cases mapGet (buildMerchantStats hist) key <;> rfl
  · intro stats h hh
    unfold hintOfStats at hh
    cases hp : pickTopCategory stats.byCategory with
    | none => rw [hp] at hh; exact Option.noConfusion hh
    | some top =>
      rw [hp] at hh
      dsimp only at hh
      by_cases hth : top.2 < 2 ∨ (top.2 : ℚ) / (stats.total : ℚ) < (13/20 : ℚ)
      · rw [if_pos hth] at hh; exact Option.noConfusion hh
      · rw [if_neg hth] at hh
        push_neg at hth
        obtain rfl : h = ⟨top.1, top.2, (top.2 : ℚ) / (stats.total : ℚ)⟩ :=
          (Option.some_inj.mp hh).symm
        exact ⟨hth.1, hth.2, top, rfl, rfl, rfl, rfl⟩
  · intro t hints c hc
    unfold categoryFromHints at hc
    cases hm : t.merchantName with
    | none => rw [hm] at hc; exact Option.noConfusion hc
    | some m =>
      rw [hm] at hc
      dsimp only at hc
      by_cases hme : m = ""
      · rw [if_pos hme] at hc; exact Option.noConfusion hc
      · rw [if_neg hme] at hc
        by_cases hkey : normalizeMerchantKey m = "" ∨
            (normalizeMerchantKey m).data.length < 3 ∨
            normalizeMerchantKey m = "UNKNOWN"
        · rw [if_pos hkey] at hc; exact Option.noConfusion hc
        · rw [if_neg hkey] at hc
          cases hg : mapGet hints (normalizeMerchantKey m) with
          | none => rw [hg] at hc; exact Option.noConfusion hc
          | some hint =>
            rw [hg] at hc
            dsimp only at hc
            by_cases hth : hint.count < 2 ∨ hint.confidence < (13/20 : ℚ)
            · rw [if_pos hth] at hc; exact Option.noConfusion hc
            · rw [if_neg hth] at hc
              push_neg at hth
              exact ⟨m, hint, rfl, hg, hth.1, hth.2,
                (Option.some_inj.mp hc).symm⟩

/-- C6 witness: one supporting transaction yields no hint; two
supporting transactions with confidence 1 yield a hint; sixteen of
twenty-five (confidence exactly 0.64) yield no hint; and the concrete
stored hint passes both thresholds. -/
theorem c6_hint_thresholds_witness :
    mapGet (buildMerchantHints [⟨"", some "ZOMATO", "food", none, 10, 0⟩])
      "ZOMATO" = none ∧
    mapGet (buildMerchantHints
      (List.replicate 2 ⟨"", some "ZOMATO", "food", none, 10, 0⟩)) "ZOMATO" =
      some ⟨"food", 2, 1⟩ ∧
    mapGet (buildMerchantHints
      (List.replicate 16 (⟨"", some "ZOMATO", "food", none, 10, 0⟩ :
          HistoricalCategorizedTransaction) ++
        List.replicate 9 ⟨"", some "ZOMATO", "travel", none, 10, 0⟩)) "ZOMATO" =
      none ∧
    2 ≤ (2 : Nat) ∧ (13/20 : ℚ) ≤ 1 := by
  obtain ⟨h1, h2, _⟩ := c6_hint_thresholds
  have hth := h2 ⟨2, [("food", 2)]⟩ ⟨"food", 2, 1⟩ (by decide)
  refine ⟨?_, ?_, ?_, hth.1, by simpa using hth.2.1⟩
  · rw [h1]; decide
  · rw [h1]; decide
  · rw [h1]; decide

/-! ## C9: credit-card transaction line parsing -/

lemma hasCRToken_of_data (s : String) (b rest : List Char)
    (hdata : s.data = b ++ ' ' :: 'C' :: 'R' :: rest)
    (hrest : rest = [] ∨ ∃ d t2, rest = d :: t2 ∧ isWsChar d = true) :
    hasCRToken s = true := by
  unfold hasCRToken
  rw [hdata]
  rw [List.any_eq_true]
  refine ⟨b.length, ?_, ?_⟩
  · rw [List.mem_range]
    simp only [List.length_append, List.length_cons]
    omega
  · have hdrop : (b ++ ' ' :: 'C' :: 'R' :: rest).drop b.length =
        ' ' :: 'C' :: 'R' :: rest := List.drop_left b _
    rw [hdrop]
    rcases hrest with h | ⟨d, t2, hr, hw⟩
    · rw [h]; decide
    · rw [hr]
      simp only [hw]
      decide

lemma hasCRToken_of_suffix (c : CreditLineCaptures) (hcr : c.crSuffix = true) :
    hasCRToken (recomposeCreditLine c) = true := by
  unfold recomposeCreditLine
  rw [hcr]
  cases htail : c.tailToken with
  | none =>
    refine hasCRToken_of_data _
      ((c.dateToken ++ " " ++ c.serialToken ++ " " ++ c.remarksRaw ++ " " ++
          c.rewardPointsToken ++
          (match c.rewardPair with
           | some pc => " " ++ pc.1 ++ " " ++ pc.2
           | none => "") ++ " " ++ c.amountToken).data) [] ?_ (Or.inl rfl)
    simp [String.data_append]
  | some tl =>
    refine hasCRToken_of_data _
      ((c.dateToken ++ " " ++ c.serialToken ++ " " ++ c.remarksRaw ++ " " ++
          c.rewardPointsToken ++
          (match c.rewardPair with
           | some pc => " " ++ pc.1 ++ " " ++ pc.2
           | none => "") ++ " " ++ c.amountToken).data) (' ' :: tl.data)
      ?_ (Or.inr ⟨' ', tl.data, rfl, by decide⟩)
    simp [String.data_append]

/-- C9 counterexample: a credit line whose narration carries an
internal whitespace-delimited CR token but no CR suffix (capture group
empty) is still recorded as a deposit, while the claim requires the
amount to be a withdrawal whenever the line has no CR suffix. -/
theorem c9_counterexample :
    recomposeCreditLine
        ⟨"01/03/2024", "12345678", "PAYMENT CR RECVD", "120", none, "450.00",
          false, none⟩ =
      "01/03/2024 12345678 PAYMENT CR RECVD 120 450.00" ∧
    parseCreditTransactionLine envZero
        ⟨"01/03/2024", "12345678", "PAYMENT CR RECVD", "120", none, "450.00",
          false, none⟩ 1 =
      some ⟨12345678, 0, 0, none, "PAYMENT CR RECVD", 0, 450, 0, some 120⟩ := by
  refine ⟨by decide, by decide⟩

/-- C9 amended: every transaction parsed from a credit line has
balance exactly 0; the parsed amount is recorded as the deposit with
withdrawal 0 exactly when the whole line contains a
whitespace-delimited CR token (case-insensitive) — in particular a CR
suffix always routes the amount to the deposit — and as the withdrawal
with deposit 0 otherwise. -/
theorem c9_credit_line (env : JsEnv) (c : CreditLineCaptures) (fs : ℚ)
    (t : RawTransaction) (h : parseCreditTransactionLine env c fs = some t) :
    t.balance = 0 ∧
    (hasCRToken (recomposeCreditLine c) = true →
      t.withdrawalAmount = 0 ∧
      parseFloatJS (removeCommas c.amountToken) = some t.depositAmount) ∧
    (hasCRToken (recomposeCreditLine c) = false →
      t.depositAmount = 0 ∧
      parseFloatJS (removeCommas c.amountToken) = some t.withdrawalAmount) ∧
    (c.crSuffix = true → hasCRToken (recomposeCreditLine c) = true) := by
  refine ⟨?_, ?_, ?_, fun hcr => hasCRToken_of_suffix c hcr⟩ <;>
  · cases ha : parseFloatJS (removeCommas c.amountToken) with
    | none =>
      simp only [parseCreditTransactionLine, ha] at h
      exact Option.noConfusion h
    | some amount =>
      simp only [parseCreditTransactionLine, ha] at h
      by_cases hr : trimStr (joinStr " "
          ([trimStr c.remarksRaw,
            (match c.tailToken with
             | some tl => sanitizeCreditTransactionTail tl
             | none => "")].filter (fun s => s ≠ ""))) = ""
      · rw [if_pos hr] at h
        exact absurd h (by simp)
      · rw [if_neg hr] at h
        rw [← Option.some_inj.mp h]
        try cases hcr : hasCRToken (recomposeCreditLine c) <;> simp [hcr, ha]

/-- C9 witness: the CR-suffixed example line of the spec is parsed as
a deposit of 450 with zero withdrawal and zero balance. -/
theorem c9_credit_line_witness :
    parseCreditTransactionLine envZero
        ⟨"01/03/2024", "12345678", "AMAZON PAY", "120", some ("1.50", "USD"),
          "450.00", true, none⟩ 1 =
      some ⟨12345678, 0, 0, none, "AMAZON PAY", 0, 450, 0, some 120⟩ ∧
    hasCRToken (recomposeCreditLine
        ⟨"01/03/2024", "12345678", "AMAZON PAY", "120", some ("1.50", "USD"),
          "450.00", true, none⟩) = true ∧
    (⟨12345678, 0, 0, none, "AMAZON PAY", 0, 450, 0, some 120⟩ :
        RawTransaction).balance = 0 ∧
    (⟨12345678, 0, 0, none, "AMAZON PAY", 0, 450, 0, some 120⟩ :
        RawTransaction).withdrawalAmount = 0 := by
  have hp : parseCreditTransactionLine envZero
      ⟨"01/03/2024", "12345678", "AMAZON PAY", "120", some ("1.50", "USD"),
        "450.00", true, none⟩ 1 =
      some ⟨12345678, 0, 0, none, "AMAZON PAY", 0, 450, 0, some 120⟩ := by decide
  have h := c9_credit_line envZero
    ⟨"01/03/2024", "12345678", "AMAZON PAY", "120", some ("1.50", "USD"),
      "450.00", true, none⟩ 1
    ⟨12345678, 0, 0, none, "AMAZON PAY", 0, 450, 0, some 120⟩ hp
  have hcr := h.2.2.2 rfl
  exact ⟨hp, hcr, h.1, (h.2.1 hcr).1⟩

/-! ## C4: the legend/note early stop of the tabular debit parser -/

/-- The row condition under which the scan loop breaks: at least six
cells, a positive integer serial in the offset column, and "legend" or
"note" inside the lowercased cell at index 5 + columnOffset. -/
def legendStopRow (columnOffset : Nat) (row : List Cell) : Bool :=
  decide (6 ≤ row.length) &&
    (decide (0 < parseAmount (cellAt row columnOffset)) &&
      jsIsInteger (parseAmount (cellAt row columnOffset))) &&
    (containsStr (lowerStr (cellStringAt row (5 + columnOffset))) "legend" ||
      containsStr (lowerStr (cellStringAt row (5 + columnOffset))) "note")

/-- C4 counterexample: a legend row without a serial number (the usual
shape of the trailing legend section) does not stop the scan even
though its remarks cell and its withdrawal-column cell both contain
"legend": a transaction located after that row is still emitted. -/
theorem c4_counterexample :
    containsStr (lowerStr (cellStringAt
        [Cell.str "", Cell.str "", Cell.str "", Cell.str "",
         Cell.str "xx legend xx", Cell.str "xx legend xx", Cell.str "",
         Cell.str ""] 4)) "legend" = true ∧
    containsStr (lowerStr (cellStringAt
        [Cell.str "", Cell.str "", Cell.str "", Cell.str "",
         Cell.str "xx legend xx", Cell.str "xx legend xx", Cell.str "",
         Cell.str ""] 5)) "legend" = true ∧
    parseDebitTransactions envZero
        [[Cell.str "S No"],
         [Cell.str "", Cell.str "", Cell.str "", Cell.str "",
          Cell.str "xx legend xx", Cell.str "xx legend xx", Cell.str "",
          Cell.str ""],
         [Cell.str "2", Cell.str "01/03/2024", Cell.str "01/03/2024",
          Cell.str "", Cell.str "UPI/ZOMATO/abc", Cell.str "250.00",
          Cell.str "", Cell.str "9750.00"]] =
      Except.ok [⟨2, 0, 0, none, "UPI/ZOMATO/abc", 250, 0, 9750, none⟩] := by
  refine ⟨by decide, by decide, by decide⟩

/-- C4 amended: the scan stops at the first row after the header whose
column-0 cell (after offset) parses as a positive integer AND whose
cell at index 5 + columnOffset — the withdrawal-amount position, which
the code reads as the remarks cell — contains "legend" or "note";
nothing at or after such a row is emitted, but rows failing the serial
test are skipped without the legend check. -/
theorem c4_legend_stop (env : JsEnv) (columnOffset : Nat)
    (pre : List (List Cell)) (row : List Cell) (post : List (List Cell))
    (hrow : legendStopRow columnOffset row = true)
    (hpre : ∀ r ∈ pre, legendStopRow columnOffset r = false) :
    scanDebitRows env columnOffset (pre ++ row :: post) =
      scanDebitRows env columnOffset pre := by
  induction pre with
  | nil =>
    simp only [List.nil_append]
    have h6 : ¬(row.length < 6) := by
      simp only [legendStopRow, Bool.and_eq_true, decide_eq_true_eq] at hrow
      omega
    have hser : ¬(parseAmount (cellAt row columnOffset) ≤ 0 ∨
        jsIsInteger (parseAmount (cellAt row columnOffset)) = false) := by
      simp only [legendStopRow, Bool.and_eq_true, decide_eq_true_eq] at hrow
      push_neg
      exact ⟨hrow.1.2.1, by simp [hrow.1.2.2]⟩
    have hleg : (containsStr (lowerStr (cellStringAt row (5 + columnOffset)))
          "legend" ||
        containsStr (lowerStr (cellStringAt row (5 + columnOffset))) "note") =
        true := by
      simp only [legendStopRow, Bool.and_eq_true] at hrow
      exact hrow.2
    simp only [scanDebitRows, if_neg h6, if_neg hser, hleg, if_true]
  | cons r rest ih =>
    have hr := hpre r (List.mem_cons_self _ _)
    have hrest : ∀ r2 ∈ rest, legendStopRow columnOffset r2 = false :=
      fun r2 h2 => hpre r2 (List.mem_cons_of_mem _ h2)
    simp only [List.cons_append, scanDebitRows]
    by_cases h6 : r.length < 6
    · rw [if_pos h6, if_pos h6]
      exact ih hrest
    · rw [if_neg h6, if_neg h6]
      by_cases hser : parseAmount (cellAt r columnOffset) ≤ 0 ∨
          jsIsInteger (parseAmount (cellAt r columnOffset)) = false
      · rw [if_pos hser, if_pos hser]
        exact ih hrest
      · rw [if_neg hser, if_neg hser]
        push_neg at hser
        have hA : decide (6 ≤ r.length) = true := decide_eq_true (not_lt.mp h6)
        have hB1 : decide (0 < parseAmount (cellAt r columnOffset)) = true :=
          decide_eq_true hser.1
        have hB2 : jsIsInteger (parseAmount (cellAt r columnOffset)) = true :=
          Bool.ne_false_iff.mp hser.2
        have hleg : (containsStr (lowerStr (cellStringAt r (5 + columnOffset)))
              "legend" ||
            containsStr (lowerStr (cellStringAt r (5 + columnOffset))) "note") =
            false := by
          simp only [legendStopRow, hA, hB1, hB2, Bool.true_and,
            Bool.and_true] at hr
          exact hr
        rw [hleg]
        simp only [Bool.false_eq_true, if_false]
        by_cases hkeep : cellStringAt r (4 + columnOffset) ≠ "" ∧
            (parseAmount (cellAt r (5 + columnOffset)) > 0 ∨
              parseAmount (cellAt r (6 + columnOffset)) > 0 ∨
              parseAmount (cellAt r (7 + columnOffset)) > 0)
        · rw [if_pos hkeep, if_pos hkeep]
          exact congrArg (List.cons _) (ih hrest)
        · rw [if_neg hkeep, if_neg hkeep]
          exact ih hrest

/-- C4 witness: a legend row that does carry a positive integer serial
stops the scan, and the transaction row after it is not emitted. -/
theorem c4_legend_stop_witness :
    legendStopRow 0
        [Cell.str "3", Cell.str "", Cell.str "", Cell.str "", Cell.str "",
         Cell.str "Legends", Cell.str "", Cell.str ""] = true ∧
    scanDebitRows envZero 0
        ([[Cell.str "2", Cell.str "01/03/2024", Cell.str "01/03/2024",
           Cell.str "", Cell.str "UPI/ZOMATO/abc", Cell.str "250.00",
           Cell.str "", Cell.str "9750.00"]] ++
          [Cell.str "3", Cell.str "", Cell.str "", Cell.str "", Cell.str "",
           Cell.str "Legends", Cell.str "", Cell.str ""] ::
          [[Cell.str "4", Cell.str "01/03/2024", Cell.str "01/03/2024",
            Cell.str "", Cell.str "UPI/SWIGGY/xyz", Cell.str "99.00",
            Cell.str "", Cell.str "9651.00"]]) =
      scanDebitRows envZero 0
        [[Cell.str "2", Cell.str "01/03/2024", Cell.str "01/03/2024",
          Cell.str "", Cell.str "UPI/ZOMATO/abc", Cell.str "250.00",
          Cell.str "", Cell.str "9750.00"]] := by
  have h := c4_legend_stop envZero 0
    [[Cell.str "2", Cell.str "01/03/2024", Cell.str "01/03/2024",
      Cell.str "", Cell.str "UPI/ZOMATO/abc", Cell.str "250.00",
      Cell.str "", Cell.str "9750.00"]]
    [Cell.str "3", Cell.str "", Cell.str "", Cell.str "", Cell.str "",
     Cell.str "Legends", Cell.str "", Cell.str ""]
    [[Cell.str "4", Cell.str "01/03/2024", Cell.str "01/03/2024",
      Cell.str "", Cell.str "UPI/SWIGGY/xyz", Cell.str "99.00",
      Cell.str "", Cell.str "9651.00"]]
    (by decide)
    (by
      intro r hr
      rw [List.mem_singleton.mp hr]
      decide)
  exact ⟨by decide, h⟩

/-! ## C5: determinism of the parse-and-categorize pipeline -/

/-- Every row after the header has non-empty value-date and
transaction-date cell strings, so parseIndianDate never consults the
clock. -/
def dateCellsPresent (data : List (List Cell)) : Bool :=
  match findHeaderRow data with
  | none => true
  | some hr =>
    (data.drop (hr.1 + 1)).all fun row =>
      !(cellStringAt row (1 + hr.2) == "") && !(cellStringAt row (2 + hr.2) == "")

/-- C5 counterexample: on a statement with an empty date cell the
pipeline output embeds the current clock (parseIndianDate returns
new Date() for an empty string), so two runs with identical inputs but
different clock values produce different categorization output. -/
theorem c5_counterexample :
    envZero.ymdTime = envNow1.ymdTime ∧
    envZero.strTime = envNow1.strTime ∧
    debitPipeline envZero engineNone
        [[Cell.str "S No"],
         [Cell.str "1", Cell.str "", Cell.str "", Cell.str "",
          Cell.str "UPI/ZOMATO/abc", Cell.str "250.00", Cell.str "",
          Cell.str "9750.00"]] [] [] =
      Except.ok [⟨1, 0, 0, none, "UPI/ZOMATO/abc", 250, 0, 9750,
        "uncategorized", some "ZOMATO", "UPI", StatementType.debit, none⟩] ∧
    debitPipeline envNow1 engineNone
        [[Cell.str "S No"],
         [Cell.str "1", Cell.str "", Cell.str "", Cell.str "",
          Cell.str "UPI/ZOMATO/abc", Cell.str "250.00", Cell.str "",
          Cell.str "9750.00"]] [] [] =
      Except.ok [⟨1, 1, 1, none, "UPI/ZOMATO/abc", 250, 0, 9750,
        "uncategorized", some "ZOMATO", "UPI", StatementType.debit, none⟩] ∧
    (⟨1, 0, 0, none, "UPI/ZOMATO/abc", 250, 0, 9750, "uncategorized",
        some "ZOMATO", "UPI", StatementType.debit, none⟩ :
      CategorizedTransaction) ≠
      ⟨1, 1, 1, none, "UPI/ZOMATO/abc", 250, 0, 9750, "uncategorized",
        some "ZOMATO", "UPI", StatementType.debit, none⟩ := by
  refine ⟨rfl, rfl, by decide, by decide, by decide⟩

lemma parseIndianDate_env_eq (env1 env2 : JsEnv) (s : String)
    (hymd : env1.ymdTime = env2.ymdTime) (hstr : env1.strTime = env2.strTime)
    (hs : s ≠ "") : parseIndianDate env1 s = parseIndianDate env2 s := by
  simp only [parseIndianDate, if_neg hs, hymd, hstr]

lemma scanDebitRows_env_eq (env1 env2 : JsEnv) (off : Nat)
    (hymd : env1.ymdTime = env2.ymdTime) (hstr : env1.strTime = env2.strTime) :
    ∀ rows : List (List Cell),
      (∀ row ∈ rows, cellStringAt row (1 + off) ≠ "" ∧
        cellStringAt row (2 + off) ≠ "") →
      scanDebitRows env1 off rows = scanDebitRows env2 off rows := by
  intro rows
  induction rows with
  | nil => intro _; rfl
  | cons r rest ih =>
    intro hall
    have hr := hall r (List.mem_cons_self _ _)
    have hrest : ∀ row ∈ rest, cellStringAt row (1 + off) ≠ "" ∧
        cellStringAt row (2 + off) ≠ "" :=
      fun row h2 => hall row (List.mem_cons_of_mem _ h2)
    have hd1 := parseIndianDate_env_eq env1 env2 _ hymd hstr hr.1
    have hd2 := parseIndianDate_env_eq env1 env2 _ hymd hstr hr.2
    simp only [scanDebitRows, hd1, hd2, ih hrest]

/-- C5 amended: for fixed input grid, rule set and historical list the
parse-and-categorize output is identical across runs (identical engine
date primitives, arbitrary clock values) PROVIDED every post-header row
has non-empty value-date and transaction-date cells; a row kept with an
empty (falsy) date cell receives the current clock as its date, which
differs between runs, while a non-empty unparseable date cell uses the
fixed engine string parser and stays deterministic. -/
theorem c5_determinism (env1 env2 : JsEnv) (E : JsRegexEngine)
    (data : List (List Cell)) (rules : List CategorizationRule)
    (hist : List HistoricalCategorizedTransaction)
    (hymd : env1.ymdTime = env2.ymdTime) (hstr : env1.strTime = env2.strTime)
    (hdates : dateCellsPresent data = true) :
    debitPipeline env1 E data rules hist = debitPipeline env2 E data rules hist := by
  unfold debitPipeline parseDebitTransactions
  cases hh : findHeaderRow data with
  | none => rfl
  | some hr =>
    have hall : ∀ row ∈ data.drop (hr.1 + 1),
        cellStringAt row (1 + hr.2) ≠ "" ∧ cellStringAt row (2 + hr.2) ≠ "" := by
      intro row hrow
      unfold dateCellsPresent at hdates
      rw [hh] at hdates
      have := List.all_eq_true.mp hdates row hrow
      simp only [Bool.and_eq_true, Bool.not_eq_true', beq_eq_false_iff_ne] at this
      exact this
    dsimp only
    rw [scanDebitRows_env_eq env1 env2 hr.2 hymd hstr (data.drop (hr.1 + 1)) hall]

/-- C5 witness: with full date cells the pipeline output is identical
even when the two runs happen at different clock values. -/
theorem c5_determinism_witness :
    debitPipeline envZero engineNone
        [[Cell.str "S No"],
         [Cell.str "2", Cell.str "01/03/2024", Cell.str "01/03/2024",
          Cell.str "", Cell.str "UPI/ZOMATO/abc", Cell.str "250.00",
          Cell.str "", Cell.str "9750.00"]] [] [] =
      debitPipeline envNow1 engineNone
        [[Cell.str "S No"],
         [Cell.str "2", Cell.str "01/03/2024", Cell.str "01/03/2024",
          Cell.str "", Cell.str "UPI/ZOMATO/abc", Cell.str "250.00",
          Cell.str "", Cell.str "9750.00"]] [] [] :=
  c5_determinism envZero envNow1 engineNone
    [[Cell.str "S No"],
     [Cell.str "2", Cell.str "01/03/2024", Cell.str "01/03/2024",
      Cell.str "", Cell.str "UPI/ZOMATO/abc", Cell.str "250.00",
      Cell.str "", Cell.str "9750.00"]] [] [] rfl rfl (by decide)

/-! ## C7: the session-level merchant cache of processTransactions -/

lemma sessionCategoryId_cached (E : JsRegexEngine)
    (rules : List CategorizationRule) (st : StatementType)
    (hints : List (String × MerchantCategoryHint))
    (cache : List (String × String)) (tx : RawTransaction) (c : String)
    (hget : mapGet cache (merchantKeyFor st tx.remarks) = some c)
    (hc : c ≠ "") : sessionCategoryId E rules st hints cache tx = c := by
  simp only [sessionCategoryId]
  rw [hget]
  dsimp only
  rw [if_neg hc]

lemma sessionCacheNext_preserves (E : JsRegexEngine)
    (rules : List CategorizationRule) (st : StatementType)
    (hints : List (String × MerchantCategoryHint))
    (cache : List (String × String)) (tx : RawTransaction) (key c : String)
    (hget : mapGet cache key = some c) (hc : c ≠ "") :
    mapGet (sessionCacheNext st cache tx
      (sessionCategoryId E rules st hints cache tx)) key = some c := by
  by_cases hk : merchantKeyFor st tx.remarks = key
  · have hcat : sessionCategoryId E rules st hints cache tx = c :=
      sessionCategoryId_cached E rules st hints cache tx c
        (by rw [hk]; exact hget) hc
    simp only [sessionCacheNext]
    split_ifs with hcond
    · rw [hcat, hk]
      exact mapGet_mapSet_self cache key c
    · exact hget
  · simp only [sessionCacheNext]
    split_ifs with hcond
    · rw [mapGet_mapSet_ne cache (merchantKeyFor st tx.remarks) key _
        (fun he => hk he.symm)]
      exact hget
    · exact hget

lemma ptAux_cached (E : JsRegexEngine) (rules : List CategorizationRule)
    (st : StatementType) (hints : List (String × MerchantCategoryHint)) :
    ∀ (txs : List RawTransaction) (cache : List (String × String))
      (key c : String) (j : ℕ) (tj : RawTransaction),
      mapGet cache key = some c → c ≠ "" →
      txs[j]? = some tj → merchantKeyFor st tj.remarks = key →
      ∃ oj, (processTransactionsAux E rules st hints cache txs)[j]? = some oj ∧
        oj.categoryId = c := by
  intro txs
  induction txs with
  | nil =>
    intro cache key c j tj _ _ hj _
    simp at hj
  | cons tx rest ih =>
    intro cache key c j tj hget hc hj hkey
    cases j with
    | zero =>
      obtain rfl : tx = tj := by simpa using hj
      have hcat : sessionCategoryId E rules st hints cache tx = c :=
        sessionCategoryId_cached E rules st hints cache tx c
          (by rw [hkey]; exact hget) hc
      refine ⟨⟨tx.serialNo, tx.valueDate, tx.transactionDate, tx.chequeNumber,
        tx.remarks, tx.withdrawalAmount, tx.depositAmount, tx.balance,
        sessionCategoryId E rules st hints cache tx,
        some (merchantInfoFor st tx.remarks).merchant,
        (merchantInfoFor st tx.remarks).method, st, tx.rewardPoints⟩, ?_, hcat⟩
      simp only [processTransactionsAux, List.getElem?_cons_zero]
    | succ j2 =>
      have hj2 : rest[j2]? = some tj := by simpa using hj
      obtain ⟨oj, h1, h2⟩ := ih
        (sessionCacheNext st cache tx
          (sessionCategoryId E rules st hints cache tx)) key c j2 tj
        (sessionCacheNext_preserves E rules st hints cache tx key c hget hc)
        hc hj2 hkey
      refine ⟨oj, ?_, h2⟩
      simp only [processTransactionsAux, List.getElem?_cons_succ]
      exact h1

lemma ptAux_session (E : JsRegexEngine) (rules : List CategorizationRule)
    (st : StatementType) (hints : List (String × MerchantCategoryHint)) :
    ∀ (txs : List RawTransaction) (cache : List (String × String))
      (i j : ℕ) (ti tj : RawTransaction) (oi : CategorizedTransaction),
      txs[i]? = some ti → txs[j]? = some tj → i < j →
      (processTransactionsAux E rules st hints cache txs)[i]? = some oi →
      merchantKeyFor st ti.remarks = merchantKeyFor st tj.remarks →
      merchantKeyFor st ti.remarks ≠ "" →
      oi.categoryId ≠ "" → oi.categoryId ≠ "uncategorized" →
      ∃ oj, (processTransactionsAux E rules st hints cache txs)[j]? = some oj ∧
        oj.categoryId = oi.categoryId := by
  intro txs
  induction txs with
  | nil =>
    intro cache i j ti tj oi hi _ _ _ _ _ _ _
    simp at hi
  | cons tx rest ih =>
    intro cache i j ti tj oi hi hj hij hoi hkk hk0 hc1 hc2
    cases i with
    | zero =>
      obtain rfl : tx = ti := by simpa using hi
      cases j with
      | zero => omega
      | succ j2 =>
        have hj2 : rest[j2]? = some tj := by simpa using hj
        have hoi2 : oi = ⟨tx.serialNo, tx.valueDate, tx.transactionDate,
            tx.chequeNumber, tx.remarks, tx.withdrawalAmount, tx.depositAmount,
            tx.balance, sessionCategoryId E rules st hints cache tx,
            some (merchantInfoFor st tx.remarks).merchant,
            (merchantInfoFor st tx.remarks).method, st, tx.rewardPoints⟩ := by
          have := hoi
          simp only [processTransactionsAux, List.getElem?_cons_zero] at this
          exact (Option.some_inj.mp this).symm
        have hcatv : sessionCategoryId E rules st hints cache tx =
            oi.categoryId := by rw [hoi2]
        have hnext : mapGet (sessionCacheNext st cache tx
            (sessionCategoryId E rules st hints cache tx))
            (merchantKeyFor st tx.remarks) = some oi.categoryId := by
          simp only [sessionCacheNext]
          rw [if_pos ⟨hk0, by rw [hcatv]; exact hc2⟩, hcatv]
          exact mapGet_mapSet_self cache _ _
        obtain ⟨oj, h1, h2⟩ := ptAux_cached E rules st hints rest
          (sessionCacheNext st cache tx
            (sessionCategoryId E rules st hints cache tx))
          (merchantKeyFor st tx.remarks) oi.categoryId j2 tj hnext hc1 hj2
          hkk.symm
        refine ⟨oj, ?_, h2⟩
        simp only [processTransactionsAux, List.getElem?_cons_succ]
        exact h1
    | succ i2 =>
      cases j with
      | zero => omega
      | succ j2 =>
        have hi2 : rest[i2]? = some ti := by simpa using hi
        have hj2 : rest[j2]? = some tj := by simpa using hj
        have hoi2 : (processTransactionsAux E rules st hints
            (sessionCacheNext st cache tx
              (sessionCategoryId E rules st hints cache tx))
            rest)[i2]? = some oi := by
          have := hoi
          simp only [processTransactionsAux, List.getElem?_cons_succ] at this
          exact this
        obtain ⟨oj, h1, h2⟩ := ih
          (sessionCacheNext st cache tx
            (sessionCategoryId E rules st hints cache tx))
          i2 j2 ti tj oi hi2 hj2 (by omega) hoi2 hkk hk0 hc1 hc2
        refine ⟨oj, ?_, h2⟩
        simp only [processTransactionsAux, List.getElem?_cons_succ]
        exact h1

/-- C7 counterexample: with a deposit rule whose categoryId is the
empty string, the first ZOMATO transaction is assigned "" (which is
neither "uncategorized" nor reused), and the second transaction with
the same merchant key re-scores to "uncategorized" instead of
receiving the first assigned category. -/
theorem c7_counterexample :
    (processTransactions engineNone
        [⟨1, 0, 0, none, "UPI/ZOMATO/abc", 0, 100, 100, none⟩,
         ⟨2, 0, 0, none, "UPI/ZOMATO/xyz", 50, 0, 50, none⟩]
        [⟨1, "", RuleType.deposit, "", RuleField.remarks, none, none⟩]
        StatementType.debit ⟨none⟩).map CategorizedTransaction.categoryId =
      ["", "uncategorized"] ∧
    merchantKeyFor StatementType.debit "UPI/ZOMATO/abc" = "ZOMATO" ∧
    merchantKeyFor StatementType.debit "UPI/ZOMATO/xyz" = "ZOMATO" ∧
    ("" : String) ≠ "uncategorized" := by
  refine ⟨?_, ?_, ?_, ?_⟩ <;> decide

/-- C7 amended: within one run of processTransactions, once some
transaction with non-empty merchant key K is assigned a categoryId
that is neither "uncategorized" nor the empty string, every later
transaction of the run whose merchant normalizes to the same key K
receives exactly that categoryId (the cache starts empty each run, so
nothing carries over between runs; a cached empty string is falsy in
the sessionCategory lookup and is re-scored, which is why the empty
category must be excluded). -/
theorem c7_session_cache (E : JsRegexEngine) (txs : List RawTransaction)
    (rules : List CategorizationRule) (st : StatementType)
    (opts : ProcessTransactionsOptions) (i j : ℕ)
    (ti tj : RawTransaction) (oi : CategorizedTransaction)
    (hi : txs[i]? = some ti) (hj : txs[j]? = some tj) (hij : i < j)
    (hoi : (processTransactions E txs rules st opts)[i]? = some oi)
    (hkk : merchantKeyFor st ti.remarks = merchantKeyFor st tj.remarks)
    (hk0 : merchantKeyFor st ti.remarks ≠ "")
    (hc1 : oi.categoryId ≠ "") (hc2 : oi.categoryId ≠ "uncategorized") :
    ∃ oj, (processTransactions E txs rules st opts)[j]? = some oj ∧
      oj.categoryId = oi.categoryId := by
  simp only [processTransactions] at hoi ⊢
  exact ptAux_session E rules st
    (buildMerchantHints (opts.historicalTransactions.getD [])) txs [] i j
    ti tj oi hi hj hij hoi hkk hk0 hc1 hc2

/-- C7 witness: a deposit rule with categoryId food categorizes the
first ZOMATO transaction, and the second transaction with the same
merchant key receives the cached food category. -/
theorem c7_session_cache_witness :
    ∃ oj, (processTransactions engineNone
        [⟨1, 0, 0, none, "UPI/ZOMATO/abc", 0, 100, 100, none⟩,
         ⟨2, 0, 0, none, "UPI/ZOMATO/xyz", 50, 0, 50, none⟩]
        [⟨1, "food", RuleType.deposit, "", RuleField.remarks, none, none⟩]
        StatementType.debit ⟨none⟩)[1]? = some oj ∧
      oj.categoryId =
        (⟨1, 0, 0, none, "UPI/ZOMATO/abc", 0, 100, 100, "food",
          some "ZOMATO", "UPI", StatementType.debit, none⟩ :
          CategorizedTransaction).categoryId :=
  c7_session_cache engineNone
    [⟨1, 0, 0, none, "UPI/ZOMATO/abc", 0, 100, 100, none⟩,
     ⟨2, 0, 0, none, "UPI/ZOMATO/xyz", 50, 0, 50, none⟩]
    [⟨1, "food", RuleType.deposit, "", RuleField.remarks, none, none⟩]
    StatementType.debit ⟨none⟩ 0 1
    ⟨1, 0, 0, none, "UPI/ZOMATO/abc", 0, 100, 100, none⟩
    ⟨2, 0, 0, none, "UPI/ZOMATO/xyz", 50, 0, 50, none⟩
    ⟨1, 0, 0, none, "UPI/ZOMATO/abc", 0, 100, 100, "food",
      some "ZOMATO", "UPI", StatementType.debit, none⟩
    (by decide) (by decide) (by decide) (by decide) (by decide) (by decide)
    (by decide) (by decide)

end PFT
